import Mathlib

/-!
# FEBio: contact interface, shell-domain assembly and symbolic integration

A shallow embedding of parts of the FEBio finite-element code:

* `FEBioLib/FESlidingInterface3.h` : the data model of the biphasic-solute sliding
  contact interface (the two classes `FESlidingSurface3` and `FESlidingInterface3`).
  Only the class declarations are available; the member functions are modelled
  from the design specification and marked as such.
* `FEBioMix/FEMultiphasicShellDomain.cpp` : the symmetrisation loop closing
  `ElementMultiphasicStiffness` / `ElementMultiphasicStiffnessSS`, and `Update`.
* `FECore/MIntegral.cpp` : symbolic integration.

C++ `double` values are embedded as rationals (exact arithmetic); C++ `int`
values as `Int` or `Nat`.
-/

namespace FEBio

/-! ## Data model of `FESlidingInterface3.h` -/

/-- Two-component vector (`vec2d`). -/
structure vec2d where
  r : ℚ
  s : ℚ
deriving DecidableEq, Repr

/-- Three-component vector (`vec3d`). -/
structure vec3d where
  x : ℚ
  y : ℚ
  z : ℚ
deriving DecidableEq, Repr

/-- Surface element of the base class `FESurface`; only the number of
integration points is used. -/
structure FESurfaceElement where
  GaussPoints : Nat
deriving DecidableEq, Repr

/-- The class `FESlidingSurface3`.  The public data members are those of the
header, in declaration order.  `m_pme` holds, per integration point, the
master element the point is projected on (a pointer in the source, here the
index of the element, `none` for the null pointer).  `m_el` is the element
array inherited from `FESurface`; `m_nsol` is the species count declared by
the surface's material. -/
structure FESlidingSurface3 where
  m_el    : List FESurfaceElement
  m_nsol  : Nat
  m_bporo : Bool
  m_bsolu : Bool
  m_gap   : List ℚ
  m_nu    : List vec3d
  m_rs    : List vec2d
  m_Lmd   : List ℚ
  m_Lmp   : List ℚ
  m_Lmc   : List ℚ
  m_pme   : List (Option Nat)
  m_Ln    : List ℚ
  m_nei   : List Int
  m_poro  : List Bool
  m_solu  : List Int
  m_epsn  : List ℚ
  m_epsp  : List ℚ
  m_epsc  : List ℚ
  m_nn    : List vec3d
  m_pg    : List ℚ
  m_cg    : List ℚ
deriving DecidableEq

/-- The class `FESlidingInterface3`: the two surfaces and the parameters, in
declaration order. -/
structure FESlidingInterface3 where
  m_ms        : FESlidingSurface3
  m_ss        : FESlidingSurface3
  m_knmult    : Int
  m_btwo_pass : Bool
  m_atol      : ℚ
  m_gtol      : ℚ
  m_ptol      : ℚ
  m_ctol      : ℚ
  m_stol      : ℚ
  m_bsymm     : Bool
  m_srad      : ℚ
  m_naugmax   : Int
  m_naugmin   : Int
  m_nsegup    : Int
  m_epsn      : ℚ
  m_bautopen  : Bool
  m_epsp      : ℚ
  m_epsc      : ℚ
  m_Rgas      : ℚ
  m_Tabs      : ℚ
  m_ambp      : ℚ
  m_ambc      : ℚ
deriving DecidableEq

/-- The surface produced by the constructor `FESlidingSurface3(FEModel*)`:
no elements, flags cleared, every per-point array empty. -/
def FESlidingSurface3.fresh : FESlidingSurface3 :=
  { m_el := [], m_nsol := 0, m_bporo := false, m_bsolu := false,
    m_gap := [], m_nu := [], m_rs := [], m_Lmd := [], m_Lmp := [], m_Lmc := [],
    m_pme := [], m_Ln := [], m_nei := [], m_poro := [], m_solu := [],
    m_epsn := [], m_epsp := [], m_epsc := [], m_nn := [], m_pg := [], m_cg := [] }

/-! ## Constraint enforcer (`ContactForces`) -/

/-- Is integration point `n` of the surface projected (does it have a master
element)? -/
def FESlidingSurface3.projected (s : FESlidingSurface3) (n : Nat) : Bool :=
  (s.m_pme.getD n none).isSome

/-- Modelled from the spec: the body of `FESlidingInterface3::ContactForces` is
not available.  Normal traction of integration point `n`, section 4.3:
`t_n = max(0, λ_n + ε_n * gap_n)` with `λ_n = m_Lmd[n]`, `ε_n = m_epsn[n]`,
`gap_n = m_gap[n]`. -/
def FESlidingSurface3.normalTraction (s : FESlidingSurface3) (n : Nat) : ℚ :=
  max 0 (s.m_Lmd.getD n 0 + s.m_epsn.getD n 0 * s.m_gap.getD n 0)

/-- Modelled from the spec: pressure flux of integration point `n`, section 4.3:
the linear penalty term `q = ε_p * gap_p`, not projected to a cone. -/
def FESlidingSurface3.pressureFlux (s : FESlidingSurface3) (n : Nat) : ℚ :=
  s.m_epsp.getD n 0 * s.m_pg.getD n 0

/-- Modelled from the spec: concentration flux of integration point `n`,
section 4.3: the linear penalty term `ε_c * gap_c`. -/
def FESlidingSurface3.concentrationFlux (s : FESlidingSurface3) (n : Nat) : ℚ :=
  s.m_epsc.getD n 0 * s.m_cg.getD n 0

/-- Geometric data of one integration point, supplied by the mesh and the
shape functions (external collaborators of the contact engine): global
equation numbers and shape-function-weighted virtual gap / pressure /
concentration coefficients, area Jacobian and Gauss weight. -/
structure PointGeom where
  lm   : List Nat
  N    : List ℚ
  lmp  : List Nat
  Np   : List ℚ
  lmc  : List Nat
  Nc   : List ℚ
  detJ : ℚ
  w    : ℚ

/-- Assembly into the global vector: `F[lm[k]] += fe[k]` for every `k`. -/
def assemble (F : Nat → ℚ) : List Nat → List ℚ → Nat → ℚ
  | eq :: lm, v :: fe => assemble (fun k => if k = eq then F k + v else F k) lm fe
  | _, _ => F

/-- Modelled from the spec: element vector of a scalar traction or flux `t`,
section 4.3: its virtual work against the weighted virtual quantity,
integrated with the area Jacobian and the Gauss weight. -/
def virtualWork (t : ℚ) (N : List ℚ) (detJ w : ℚ) : List ℚ :=
  N.map (fun Nk => t * Nk * detJ * w)

/-- Modelled from the spec: the part of `ContactForces` that treats the normal
traction of a projected integration point `n`. -/
def FESlidingSurface3.tractionForces (s : FESlidingSurface3) (g : PointGeom) (n : Nat)
    (F : Nat → ℚ) : Nat → ℚ :=
  assemble F g.lm (virtualWork (s.normalTraction n) g.N g.detJ g.w)

/-- Modelled from the spec: the part of `ContactForces` that treats the
pressure flux (poro-enabled surface) and the concentration flux
(solute-enabled surface) of a projected integration point `n`. -/
def FESlidingSurface3.fluxForces (s : FESlidingSurface3) (g : PointGeom) (n : Nat)
    (F : Nat → ℚ) : Nat → ℚ :=
  let F2 := if s.m_bporo then
      assemble F g.lmp (virtualWork (s.pressureFlux n) g.Np g.detJ g.w) else F
  if s.m_bsolu then
    assemble F2 g.lmc (virtualWork (s.concentrationFlux n) g.Nc g.detJ g.w) else F2

/-- Modelled from the spec: contribution of integration point `n` to the
global residual in `ContactForces`: the normal traction, then the fluxes.
An unprojected point is inactive. -/
def FESlidingSurface3.pointForces (s : FESlidingSurface3) (g : PointGeom) (n : Nat)
    (F : Nat → ℚ) : Nat → ℚ :=
  if s.projected n then s.fluxForces g n (s.tractionForces g n F) else F

/-- Modelled from the spec: the signed normal gap of section 4.2 at
integration point `n`, the signed distance along the normal (negative =
penetration, positive = separation).  The traction formula of section 4.3 is
written in the stored gap function `m_gap`, the measure of penetration that
loads the point where it is positive; the signed distance is its negative. -/
def FESlidingSurface3.signedGap (s : FESlidingSurface3) (n : Nat) : ℚ :=
  -(s.m_gap.getD n 0)

/-- Modelled from the spec: the state machine of section 4.3.  A point is
active (Projected-Active) when it is projected and carries a compressive
traction; otherwise it is Unprojected or Projected-Inactive. -/
def FESlidingSurface3.active (s : FESlidingSurface3) (n : Nat) : Bool :=
  s.projected n && decide (0 < s.normalTraction n)

/-- Modelled from the spec: the body of the loop of `ContactForces` over the
integration points.  The contract of section 4.3 holds per active
integration point; a point that is not active is absorbed silently and
leaves the residual as it is. -/
def FESlidingSurface3.contribution (s : FESlidingSurface3) (g : PointGeom) (n : Nat)
    (F : Nat → ℚ) : Nat → ℚ :=
  if s.active n then s.pointForces g n F else F

/-- The loop of a surface over its integration points `0, ..., npts - 1`. -/
def FESlidingSurface3.surfaceForces (s : FESlidingSurface3) (geom : Nat → PointGeom)
    (F : Nat → ℚ) : Nat → (Nat → ℚ)
  | 0 => F
  | n + 1 => s.contribution (geom n) n (s.surfaceForces geom F n)

/-- Modelled from the spec: `FESlidingInterface3::ContactForces`: the
contribution of the slave surface and, in two-pass mode, that of the master
surface with the roles swapped, accumulated into the global residual. -/
def FESlidingInterface3.ContactForces (ci : FESlidingInterface3)
    (geomS geomM : Nat → PointGeom) (F : Nat → ℚ) : Nat → ℚ :=
  let F1 := ci.m_ss.surfaceForces geomS F ci.m_ss.m_gap.length
  if ci.m_btwo_pass then ci.m_ms.surfaceForces geomM F1 ci.m_ms.m_gap.length else F1

/-! ## Augmentation controller (`Augment`) -/

/-- Modelled from the spec: section 4.4, normal-gap violation.  Some projected
point that is in contact (positive traction) has `|gap|` above the tolerance. -/
def FESlidingSurface3.gapExceeds (s : FESlidingSurface3) (gtol : ℚ) : Bool :=
  (List.range s.m_gap.length).any (fun n =>
    s.projected n && decide (0 < s.normalTraction n) && decide (gtol < |s.m_gap.getD n 0|))

/-- Modelled from the spec: section 4.4, pressure-gap violation, where enabled. -/
def FESlidingSurface3.pressureExceeds (s : FESlidingSurface3) (ptol : ℚ) : Bool :=
  s.m_bporo && (List.range s.m_pg.length).any (fun n =>
    s.projected n && decide (ptol < |s.m_pg.getD n 0|))

/-- Modelled from the spec: section 4.4, concentration-gap violation, where
enabled. -/
def FESlidingSurface3.concentrationExceeds (s : FESlidingSurface3) (ctol : ℚ) : Bool :=
  s.m_bsolu && (List.range s.m_cg.length).any (fun n =>
    s.projected n && decide (ctol < |s.m_cg.getD n 0|))

/-- Modelled from the spec: section 4.4, "any violation exceeds its tolerance
(`m_gtol`, `m_ptol`, `m_ctol`)", over the points of both surfaces. -/
def FESlidingInterface3.violation (ci : FESlidingInterface3) : Bool :=
  ci.m_ss.gapExceeds ci.m_gtol || ci.m_ms.gapExceeds ci.m_gtol ||
  ci.m_ss.pressureExceeds ci.m_ptol || ci.m_ms.pressureExceeds ci.m_ptol ||
  ci.m_ss.concentrationExceeds ci.m_ctol || ci.m_ms.concentrationExceeds ci.m_ctol

/-- Modelled from the spec: section 4.4, the multiplier update of one surface:
`λ_n ← λ_n + ε_n * gap_n` clamped to non-negative, `λ_p ← λ_p + ε_p * gap_p`
and likewise for the concentration, at every point. -/
def FESlidingSurface3.augment (s : FESlidingSurface3) : FESlidingSurface3 :=
  { s with
    m_Lmd := (List.range s.m_Lmd.length).map (fun n =>
      max 0 (s.m_Lmd.getD n 0 + s.m_epsn.getD n 0 * s.m_gap.getD n 0))
    m_Lmp := (List.range s.m_Lmp.length).map (fun n =>
      s.m_Lmp.getD n 0 + s.m_epsp.getD n 0 * s.m_pg.getD n 0)
    m_Lmc := (List.range s.m_Lmc.length).map (fun n =>
      s.m_Lmc.getD n 0 + s.m_epsc.getD n 0 * s.m_cg.getD n 0) }

/-- Outcome of `Augment`: the returned flag (`true` converged, `false` another
inner solve is required), the report of a fatal non-convergence of the step to
the outer driver, the interface after the call and the augmentation counter
after the call. -/
structure AugmentResult where
  ret         : Bool
  stepFailure : Bool
  ci          : FESlidingInterface3
  naug        : Int
deriving DecidableEq

/-- Modelled from the spec: `FESlidingInterface3::Augment(naug)`, section 4.4;
only its declaration is available.  Within tolerance and the minimum count
met: the step is accepted.  Otherwise, below the maximum count: every
multiplier is updated, the counter is incremented and another solve is
requested.  Otherwise the maximum count is reached without convergence: a
fatal non-convergence is reported. -/
def FESlidingInterface3.Augment (ci : FESlidingInterface3) (naug : Int) : AugmentResult :=
  if ci.violation = false ∧ ci.m_naugmin ≤ naug then
    { ret := true, stepFailure := false, ci := ci, naug := naug }
  else if naug < ci.m_naugmax then
    { ret := false, stepFailure := false,
      ci := { ci with m_ss := ci.m_ss.augment, m_ms := ci.m_ms.augment },
      naug := naug + 1 }
  else
    { ret := false, stepFailure := true, ci := ci, naug := naug }

/-! ## Initialisation (`Init`) -/

/-- Total number of integration points of a surface. -/
def FESlidingSurface3.nint (s : FESlidingSurface3) : Nat :=
  (s.m_el.map FESurfaceElement.GaussPoints).sum

/-- Modelled from the spec: `FESlidingSurface3::Init`, section 6: fails on a
surface without elements, otherwise sizes the per-point state arrays to the
number of integration points (zero gaps and multipliers, no projection). -/
def FESlidingSurface3.Init (s : FESlidingSurface3) : Bool × FESlidingSurface3 :=
  if s.m_el.isEmpty then (false, s)
  else
    let n := s.nint
    (true, { s with
      m_gap := List.replicate n 0, m_nu := List.replicate n ⟨0, 0, 0⟩,
      m_rs := List.replicate n ⟨0, 0⟩,
      m_Lmd := List.replicate n 0, m_Lmp := List.replicate n 0, m_Lmc := List.replicate n 0,
      m_pme := List.replicate n none, m_Ln := List.replicate n 0,
      m_epsn := List.replicate n 0, m_epsp := List.replicate n 0,
      m_epsc := List.replicate n 0,
      m_pg := List.replicate n 0, m_cg := List.replicate n 0 })

/-- A surface is poro/solute-enabled when one of its two mode flags is set. -/
def FESlidingSurface3.enabled (s : FESlidingSurface3) : Bool :=
  s.m_bporo || s.m_bsolu

/-- Modelled from the spec: the species counts of two poro/solute-enabled
surfaces differ. -/
def speciesMismatch (ss ms : FESlidingSurface3) : Bool :=
  ss.enabled && ms.enabled && decide (ss.m_nsol ≠ ms.m_nsol)

/-- Modelled from the spec: `FESlidingInterface3::Init`, section 6: validate the
surface pairing, allocate the per-point state, perform the initial
projection; fails if either surface is empty or the species counts of
poro/solute-enabled surfaces mismatch.  `ProjectSurface ss ms bupseg` is the
closest-point projection of `ss` onto `ms` (declared in the header, a
geometric search that is a parameter here). -/
def FESlidingInterface3.Init (ci : FESlidingInterface3)
    (ProjectSurface : FESlidingSurface3 → FESlidingSurface3 → Bool → FESlidingSurface3) :
    Bool × FESlidingInterface3 :=
  let rs := ci.m_ss.Init
  if rs.1 = false then (false, { ci with m_ss := rs.2 })
  else
    let rm := ci.m_ms.Init
    if rm.1 = false then (false, { ci with m_ss := rs.2, m_ms := rm.2 })
    else if speciesMismatch rs.2 rm.2 then (false, { ci with m_ss := rs.2, m_ms := rm.2 })
    else
      let ss := ProjectSurface rs.2 rm.2 true
      let ms := if ci.m_btwo_pass then ProjectSurface rm.2 ss true else rm.2
      (true, { ci with m_ss := ss, m_ms := ms })

/-! ## Checkpointing (`Serialize`) -/

/-- One primitive value of the archive (`DumpFile`). -/
inductive Cell where
  | b (v : Bool)
  | i (v : Int)
  | d (v : ℚ)
deriving DecidableEq, Repr

/-- The archive: its mode (`IsSaving()`) and its contents still to be read, or
written so far. -/
structure DumpFile where
  saving : Bool
  data   : List Cell
deriving DecidableEq, Repr

/-- Read a flag. -/
def getBool : List Cell → Option (Bool × List Cell)
  | Cell.b v :: r => some (v, r)
  | _ => none

/-- Read an integer. -/
def getInt : List Cell → Option (Int × List Cell)
  | Cell.i v :: r => some (v, r)
  | _ => none

/-- Read a double. -/
def getDbl : List Cell → Option (ℚ × List Cell)
  | Cell.d v :: r => some (v, r)
  | _ => none

/-- Write a `vec2d`: its two components. -/
def putVec2 (v : vec2d) : List Cell := [Cell.d v.r, Cell.d v.s]

/-- Read a `vec2d`. -/
def getVec2 : List Cell → Option (vec2d × List Cell)
  | Cell.d a :: Cell.d b :: r => some (⟨a, b⟩, r)
  | _ => none

/-- Write a `vec3d`: its three components. -/
def putVec3 (v : vec3d) : List Cell := [Cell.d v.x, Cell.d v.y, Cell.d v.z]

/-- Read a `vec3d`. -/
def getVec3 : List Cell → Option (vec3d × List Cell)
  | Cell.d a :: Cell.d b :: Cell.d c :: r => some (⟨a, b, c⟩, r)
  | _ => none

/-- Write a projection target: the index of the master element, `-1` for an
unprojected point. -/
def putPme : Option Nat → List Cell
  | none => [Cell.i (-1)]
  | some k => [Cell.i (Int.ofNat k)]

/-- Read a projection target. -/
def getPme : List Cell → Option (Option Nat × List Cell)
  | Cell.i v :: r => some (if v < 0 then none else some v.toNat, r)
  | _ => none

/-- Write a vector: its size, then its items. -/
def putVector {α : Type} (put : α → List Cell) (xs : List α) : List Cell :=
  Cell.i (Int.ofNat xs.length) :: xs.flatMap put

/-- Read `n` items. -/
def getItems {α : Type} (get : List Cell → Option (α × List Cell)) :
    Nat → List Cell → Option (List α × List Cell)
  | 0, r => some ([], r)
  | n + 1, r =>
    match get r with
    | none => none
    | some (x, r1) =>
      match getItems get n r1 with
      | none => none
      | some (xs, r2) => some (x :: xs, r2)

/-- Read a vector: its size, then its items. -/
def getVector {α : Type} (get : List Cell → Option (α × List Cell)) :
    List Cell → Option (List α × List Cell)
  | Cell.i v :: r => if v < 0 then none else getItems get v.toNat r
  | _ => none

/-- Modelled from the spec: what `FESlidingSurface3::Serialize` writes in save
mode, section 6, in the fixed field order: surface flags, gap arrays,
multiplier arrays, projection indices and coordinates, penalty arrays, node
normals. -/
def FESlidingSurface3.save (s : FESlidingSurface3) : List Cell :=
  [Cell.b s.m_bporo, Cell.b s.m_bsolu]
  ++ putVector (fun v => [Cell.d v]) s.m_gap
  ++ putVector (fun v => [Cell.d v]) s.m_pg
  ++ putVector (fun v => [Cell.d v]) s.m_cg
  ++ putVector (fun v => [Cell.d v]) s.m_Lmd
  ++ putVector (fun v => [Cell.d v]) s.m_Lmp
  ++ putVector (fun v => [Cell.d v]) s.m_Lmc
  ++ putVector putPme s.m_pme
  ++ putVector putVec2 s.m_rs
  ++ putVector (fun v => [Cell.d v]) s.m_epsn
  ++ putVector (fun v => [Cell.d v]) s.m_epsp
  ++ putVector (fun v => [Cell.d v]) s.m_epsc
  ++ putVector putVec3 s.m_nn

/-- Read three vectors of doubles written one after the other. -/
def getDbl3 (r : List Cell) : Option ((List ℚ × List ℚ × List ℚ) × List Cell) :=
  (getVector getDbl r).bind fun a =>
  (getVector getDbl a.2).bind fun b =>
  (getVector getDbl b.2).bind fun c =>
  some ((a.1, b.1, c.1), c.2)

/-- Modelled from the spec: restore, first group: the surface flags. -/
def FESlidingSurface3.loadFlags (s : FESlidingSurface3) (ar : List Cell) :
    Option (FESlidingSurface3 × List Cell) :=
  (getBool ar).bind fun bporo =>
  (getBool bporo.2).bind fun bsolu =>
  some ({ s with m_bporo := bporo.1, m_bsolu := bsolu.1 }, bsolu.2)

/-- Modelled from the spec: restore, second group: the gap arrays. -/
def FESlidingSurface3.loadGaps (s : FESlidingSurface3) (ar : List Cell) :
    Option (FESlidingSurface3 × List Cell) :=
  (getDbl3 ar).bind fun g =>
  some ({ s with m_gap := g.1.1, m_pg := g.1.2.1, m_cg := g.1.2.2 }, g.2)

/-- Modelled from the spec: restore, third group: the multiplier arrays. -/
def FESlidingSurface3.loadMultipliers (s : FESlidingSurface3) (ar : List Cell) :
    Option (FESlidingSurface3 × List Cell) :=
  (getDbl3 ar).bind fun g =>
  some ({ s with m_Lmd := g.1.1, m_Lmp := g.1.2.1, m_Lmc := g.1.2.2 }, g.2)

/-- Modelled from the spec: restore, fourth group: the projection indices and
coordinates. -/
def FESlidingSurface3.loadProjection (s : FESlidingSurface3) (ar : List Cell) :
    Option (FESlidingSurface3 × List Cell) :=
  (getVector getPme ar).bind fun pme =>
  (getVector getVec2 pme.2).bind fun rs =>
  some ({ s with m_pme := pme.1, m_rs := rs.1 }, rs.2)

/-- Modelled from the spec: restore, fifth group: the penalty arrays. -/
def FESlidingSurface3.loadPenalties (s : FESlidingSurface3) (ar : List Cell) :
    Option (FESlidingSurface3 × List Cell) :=
  (getDbl3 ar).bind fun g =>
  some ({ s with m_epsn := g.1.1, m_epsp := g.1.2.1, m_epsc := g.1.2.2 }, g.2)

/-- Modelled from the spec: restore, sixth group: the node normals. -/
def FESlidingSurface3.loadNormals (s : FESlidingSurface3) (ar : List Cell) :
    Option (FESlidingSurface3 × List Cell) :=
  (getVector getVec3 ar).bind fun nn =>
  some ({ s with m_nn := nn.1 }, nn.2)

/-- Modelled from the spec: what `FESlidingSurface3::Serialize` does in restore
mode: the fields are read back in the order they were written and stored in
the surface; `none` when the archive does not hold them. -/
def FESlidingSurface3.load (s : FESlidingSurface3) (ar : List Cell) :
    Option (FESlidingSurface3 × List Cell) :=
  (s.loadFlags ar).bind fun p1 =>
  (p1.1.loadGaps p1.2).bind fun p2 =>
  (p2.1.loadMultipliers p2.2).bind fun p3 =>
  (p3.1.loadProjection p3.2).bind fun p4 =>
  (p4.1.loadPenalties p4.2).bind fun p5 =>
  p5.1.loadNormals p5.2

/-- Modelled from the spec: `FESlidingSurface3::Serialize(DumpFile&)`: one
routine for both directions, selected by the mode of the archive. -/
def FESlidingSurface3.Serialize (s : FESlidingSurface3) (ar : DumpFile) :
    Option (FESlidingSurface3 × DumpFile) :=
  if ar.saving then some (s, { ar with data := ar.data ++ s.save })
  else
    match s.load ar.data with
    | none => none
    | some (s1, r) => some (s1, { ar with data := r })

/-- Modelled from the spec: `FESlidingInterface3::Serialize(DumpFile&)`: the
per-point and per-surface state of the master surface, then of the slave
surface. -/
def FESlidingInterface3.Serialize (ci : FESlidingInterface3) (ar : DumpFile) :
    Option (FESlidingInterface3 × DumpFile) :=
  match ci.m_ms.Serialize ar with
  | none => none
  | some (ms, ar1) =>
    match ci.m_ss.Serialize ar1 with
    | none => none
    | some (ss, ar2) => some ({ ci with m_ms := ms, m_ss := ss }, ar2)

/-- The interface produced by the constructor `FESlidingInterface3(FEModel*)`:
two fresh surfaces; the parameters are read from the input afterwards. -/
def FESlidingInterface3.fresh : FESlidingInterface3 :=
  { m_ms := FESlidingSurface3.fresh, m_ss := FESlidingSurface3.fresh,
    m_knmult := 0, m_btwo_pass := false, m_atol := 0, m_gtol := 0, m_ptol := 0,
    m_ctol := 0, m_stol := 0, m_bsymm := false, m_srad := 0, m_naugmax := 0,
    m_naugmin := 0, m_nsegup := 0, m_epsn := 0, m_bautopen := false, m_epsp := 0,
    m_epsc := 0, m_Rgas := 0, m_Tabs := 0, m_ambp := 0, m_ambc := 0 }

/-! ## `FEMultiphasicShellDomain.cpp`: symmetrisation of the element stiffness -/

/-- Dense element matrix (`matrix`), addressed as `ke[i][j]`. -/
abbrev matrix := Nat → Nat → ℚ

/-- The assignment `ke[i][j] = v`. -/
def matrix.set (ke : matrix) (i j : Nat) (v : ℚ) : matrix :=
  fun a b => if a = i ∧ b = j then v else ke a b

/-- The first `k` passes `j = i+1, ..., i+k` of the inner loop
`for (j=i+1; j<ndpn*neln; ++j) { tmp = 0.5*(ke[i][j]+ke[j][i]); ke[i][j] = ke[j][i] = tmp; }`. -/
def symmInner (i : Nat) (ke : matrix) : Nat → matrix
  | 0 => ke
  | k + 1 =>
    let ke1 := symmInner i ke k
    let j := i + 1 + k
    let tmp := 0.5 * (ke1 i j + ke1 j i)
    (ke1.set j i tmp).set i j tmp

/-- The first `m` passes `i = 0, ..., m-1` of the outer loop
`for (i=0; i<ndpn*neln; ++i)` over a matrix of `n = ndpn*neln` rows. -/
def symmOuter (n : Nat) (ke : matrix) : Nat → matrix
  | 0 => ke
  | m + 1 => symmInner m (symmOuter n ke m) (n - (m + 1))

/-- The closing block of both stiffness routines:
`if (bsymm) { for (i...) for (j...) ... }`. -/
def enforceSymmetry (n : Nat) (bsymm : Bool) (ke : matrix) : matrix :=
  if bsymm then symmOuter n ke n else ke

/-- The routine `FEMultiphasicShellDomain::ElementMultiphasicStiffness(el, ke, bsymm)`
from the end of its loop over the Gauss points on: `ke` is the block the Gauss
loop has accumulated, `nsol` the number of solutes (`ndpn = 2*(4+nsol)`), `neln`
the number of element nodes.  Returns the flag `true` and the block. -/
def ElementMultiphasicStiffness (nsol neln : Nat) (ke : matrix) (bsymm : Bool) :
    Bool × matrix :=
  let ndpn := 2 * (4 + nsol)
  (true, enforceSymmetry (ndpn * neln) bsymm ke)

/-- The routine `FEMultiphasicShellDomain::ElementMultiphasicStiffnessSS(el, ke, bsymm)`
from the end of its loop over the Gauss points on; it closes with the same
block as the transient routine. -/
def ElementMultiphasicStiffnessSS (nsol neln : Nat) (ke : matrix) (bsymm : Bool) :
    Bool × matrix :=
  let ndpn := 2 * (4 + nsol)
  (true, enforceSymmetry (ndpn * neln) bsymm ke)

/-- A 2-by-2 block with distinct off-diagonal entries (zero elsewhere). -/
def sampleBlock : matrix :=
  fun a b => if a = 0 ∧ b = 1 then 4 else if a = 1 ∧ b = 0 then 2 else
    if a = b then 7 else 0

/-! ## `FEException.h` and `FEMultiphasicShellDomain::Update` -/

/-- The exception `NegativeJacobian` (the element pointer `m_pel` is left out). -/
structure NegativeJacobian where
  m_iel : Int
  m_ng  : Int
  m_vol : ℚ
deriving DecidableEq, Repr

/-- The exception classes of `FEException.h`. -/
inductive Thrown where
  | NegativeJacobian (e : FEBio.NegativeJacobian)
  | ZeroDiagonal (node dof : Int)
  | EnergyDiverging
  | MaxStiffnessReformations
  | ZeroLinestepSize
  | ExitRequest
  | ForceConversion
  | IterationFailure
  | NANDetected
  | FatalError
  | FEMultiScaleException (elemId gptIndex : Int)
  | DoRunningRestart
deriving DecidableEq, Repr

/-- What `Update` writes to the screen and the log file. -/
inductive LogMsg where
  | print (e : NegativeJacobian)
  | printbox (title msg : String)
deriving DecidableEq, Repr

/-- The variables of the loop of `Update`: the element data of the domain, the
flag `berr`, and the output written so far. -/
structure UpdateLoop (σ : Type) where
  dom  : σ
  berr : Bool
  log  : List LogMsg

/-- The first `k` passes `i = 0, ..., k-1` of
`for (int i=0; i<NE; ++i) { try { UpdateElementStress(i, dt); } catch (NegativeJacobian e) { berr = true; if (NegativeJacobian::m_boutput) e.print(); } }`,
run in sequence.  `ues i dt d` is `UpdateElementStress(i, dt)` on the element
data `d`: the element data it leaves behind, and the `NegativeJacobian` it
raised, if any. -/
def updateLoop {σ : Type} (ues : Nat → ℚ → σ → σ × Option NegativeJacobian)
    (m_boutput : Bool) (dt : ℚ) (st : UpdateLoop σ) : Nat → UpdateLoop σ
  | 0 => st
  | k + 1 =>
    let st1 := updateLoop ues m_boutput dt st k
    match ues k dt st1.dom with
    | (d, none) => { st1 with dom := d }
    | (d, some e) =>
      { dom := d, berr := true,
        log := st1.log ++ (if m_boutput then [LogMsg.print e] else []) }

/-- Outcome of `Update`: the exception that leaves it, if any, the element
data and the output. -/
structure UpdateOutcome (σ : Type) where
  thrown : Option Thrown
  dom    : σ
  log    : List LogMsg

/-- The routine `FEMultiphasicShellDomain::Update`: the loop over the `NE`
elements, then `if (berr) { if (NegativeJacobian::m_boutput == false)
felog.printbox(...); throw DoRunningRestart(); }`. -/
def Update {σ : Type} (ues : Nat → ℚ → σ → σ × Option NegativeJacobian)
    (m_boutput : Bool) (NE : Nat) (dt : ℚ) (d : σ) : UpdateOutcome σ :=
  let st := updateLoop ues m_boutput dt { dom := d, berr := false, log := [] } NE
  if st.berr then
    { thrown := some Thrown.DoRunningRestart, dom := st.dom,
      log := st.log ++ (if m_boutput = false then
        [LogMsg.printbox "ERROR" "Negative jacobian was detected."] else []) }
  else
    { thrown := none, dom := st.dom, log := st.log }

/-- The element data before pass `k` of the loop: every earlier element has
been handed to `UpdateElementStress`, whether it failed or not. -/
def visited {σ : Type} (ues : Nat → ℚ → σ → σ × Option NegativeJacobian)
    (dt : ℚ) (d : σ) : Nat → σ
  | 0 => d
  | k + 1 => (ues k dt (visited ues dt d k)).1

/-- A sample `UpdateElementStress` on a domain whose data is the list of the
elements handled so far: element 1 has a negative Jacobian. -/
def sampleStress (i : Nat) (_dt : ℚ) (d : List Nat) : List Nat × Option NegativeJacobian :=
  (d ++ [i], if i = 1 then some ⟨1, 0, -1⟩ else none)

/-! ## `FECore/MIntegral.cpp`: symbolic integration -/

/-- A variable of the symbolic algebra (`MVariable`), identified by its name. -/
structure MVariable where
  name : String
deriving DecidableEq, Repr

/-- Expression tree (`MITEM`, a handle to an `MItem`).  The constructors carry
the names of the item types that `MIntegral` tells apart with `e.Type()`; `MOTHER`
stands for an item of any other type (equations, functions of several
arguments, matrices, sequences). -/
inductive MITEM where
  | MCONST (v : ℚ)
  | MFRAC (n d : ℚ)
  | MNAMED (name : String) (v : ℚ)
  | MVAR (x : MVariable)
  | MNEG (i : MITEM)
  | MADD (l r : MITEM)
  | MSUB (l r : MITEM)
  | MMUL (l r : MITEM)
  | MDIV (l r : MITEM)
  | MPOW (l r : MITEM)
  | MF1D (name : String) (i : MITEM)
  | MINTEGRAL (e : MITEM) (x : MVariable)
  | MOTHER (tag : Nat)
deriving DecidableEq, Repr

/-- The comparison `e == x` of an expression with a variable: the expression
is a reference to that variable. -/
def MITEM.isVarRef (e : MITEM) (x : MVariable) : Bool :=
  decide (e = MITEM.MVAR x)

/-- The test `is_var(e)`. -/
def is_var : MITEM → Bool
  | MITEM.MVAR _ => true
  | _ => false

/-- The test `is_add(e)`. -/
def is_add : MITEM → Bool
  | MITEM.MADD _ _ => true
  | _ => false

/-- The test `is_sub(e)`. -/
def is_sub : MITEM → Bool
  | MITEM.MSUB _ _ => true
  | _ => false

/-- The routines of the symbolic algebra that `MIntegral.cpp` calls and that
are declared in `MMath.h` and `MEvaluate.h`: simplification, expansion,
substitution, the dependency test, the overloaded operators (which may
simplify their result), the constructors of numbers and of the elementary
functions, and the tests and accessors of numbers. -/
structure MMath where
  MEvaluate    : MITEM → MITEM
  MExpand      : MITEM → MITEM
  MReplace     : MITEM → MVariable → MITEM → MITEM
  is_dependent : MITEM → MVariable → Bool
  neg : MITEM → MITEM
  add : MITEM → MITEM → MITEM
  sub : MITEM → MITEM → MITEM
  mul : MITEM → MITEM → MITEM
  div : MITEM → MITEM → MITEM
  pow : MITEM → MITEM → MITEM
  ofDouble : ℚ → MITEM
  Fraction : ℚ → ℚ → MITEM
  isConst   : MITEM → Bool
  is_int    : MITEM → Bool
  is_number : MITEM → Bool
  value     : MITEM → ℚ
  mnumber_value : MITEM → ℚ
  Log : MITEM → MITEM
  Abs : MITEM → MITEM
  Sin : MITEM → MITEM
  Cos : MITEM → MITEM
  Tan : MITEM → MITEM
  Cot : MITEM → MITEM
  Sec : MITEM → MITEM
  Csc : MITEM → MITEM
  Sinh : MITEM → MITEM
  Cosh : MITEM → MITEM
  Atan : MITEM → MITEM
  Exp : MITEM → MITEM

/-- The closing statement `return new MOpIntegral(e.copy(), new MVarRef(&x));`,
reached when no integration rule applies. -/
def noRule (e : MITEM) (x : MVariable) : Option MITEM :=
  some (MITEM.MINTEGRAL e x)

/-- The case `MF1D` with the argument `p == x`: the table of closed forms. -/
def integrateF1D (M : MMath) (s : String) (p : MITEM) (e : MITEM) (x : MVariable) :
    Option MITEM :=
  if s = "cos" then some (M.Sin p)
  else if s = "sin" then some (M.neg (M.Cos p))
  else if s = "tan" then some (M.neg (M.Log (M.Abs (M.Cos p))))
  else if s = "cot" then some (M.Log (M.Abs (M.Sin p)))
  else if s = "sec" then some (M.Log (M.Abs (M.add (M.Sec p) (M.Tan p))))
  else if s = "csc" then some (M.neg (M.Log (M.Abs (M.add (M.Csc p) (M.Cot p)))))
  else if s = "sinh" then some (M.Cosh p)
  else if s = "cosh" then some (M.Sinh p)
  else if s = "tanh" then some (M.Log (M.Cosh p))
  else if s = "sech" then some (M.Atan (M.Sinh p))
  else if s = "exp" then some (M.Exp p)
  else noRule e x

/-- The function `MITEM MIntegral(const MITEM& i, const MVariable& x)`: the
indefinite integral, without integration constant.  The recursion of the
source is not structural (it re-enters on `MExpand(e)`), so the depth of the
recursion is bounded by the first argument; `none` when the bound is
exhausted. -/
def MIntegral (M : MMath) (x : MVariable) : Nat → MITEM → Option MITEM
  | 0, _ => none
  | fuel + 1, i =>
    let e := M.MEvaluate i
    if M.is_dependent e x = false then some (M.mul e (MITEM.MVAR x))
    else
      match e with
      | MITEM.MVAR _ =>
        if e.isVarRef x then
          some (M.mul (M.Fraction 1 2) (M.pow (MITEM.MVAR x) (M.ofDouble 2)))
        else noRule e x
      | MITEM.MNEG a => (MIntegral M x fuel a).map M.neg
      | MITEM.MADD l r =>
        (MIntegral M x fuel l).bind (fun a => (MIntegral M x fuel r).map (fun b => M.add a b))
      | MITEM.MSUB l r =>
        (MIntegral M x fuel l).bind (fun a => (MIntegral M x fuel r).map (fun b => M.sub a b))
      | MITEM.MMUL l r =>
        if M.is_dependent l x = false then (MIntegral M x fuel r).map (fun b => M.mul l b)
        else if M.is_dependent r x = false then (MIntegral M x fuel l).map (fun a => M.mul r a)
        else MIntegral M x fuel (M.MExpand e)
      | MITEM.MDIV l r =>
        if M.is_dependent r x = false then (MIntegral M x fuel l).map (fun a => M.div a r)
        else noRule e x
      | MITEM.MPOW l r =>
        if is_var l && M.isConst r then
          if l.isVarRef x then
            if M.value r ≠ -1 then
              let np1 := M.ofDouble (M.value r + 1)
              some (M.div (M.pow l np1) np1)
            else some (M.Log (M.Abs l))
          else some (M.mul e (MITEM.MVAR x))
        else if M.is_int r && (is_add l || is_sub l) then MIntegral M x fuel (M.MExpand e)
        else if M.is_number l && M.is_dependent r x then
          if M.is_int l = false || decide (1 < M.mnumber_value l) then
            if r.isVarRef x then some (M.div e (M.Log l))
            else
              match r with
              | MITEM.MMUL rl rr =>
                if M.is_number rl && rr.isVarRef x then some (M.div e (M.mul rl (M.Log l)))
                else noRule e x
              | _ => noRule e x
          else noRule e x
        else noRule e x
      | MITEM.MF1D s p =>
        if p.isVarRef x then integrateF1D M s p e x else noRule e x
      | _ => noRule e x

/-- The function `MITEM MIntegral(const MITEM& i, const MVariable& x, const MITEM& a,
const MITEM& b)`: the definite integral.
`MITEM e = MEvaluate(i); MITEM Ie = MIntegral(e, x);
return MReplace(Ie, x, b) - MReplace(Ie, x, a);` -/
def MIntegralDefinite (M : MMath) (x : MVariable) (fuel : Nat) (i a b : MITEM) :
    Option MITEM :=
  let e := M.MEvaluate i
  match MIntegral M x fuel e with
  | none => none
  | some Ie => some (M.sub (M.MReplace Ie x b) (M.MReplace Ie x a))

/-- Does the variable occur in the expression tree? -/
def MITEM.mentions (x : MVariable) : MITEM → Bool
  | MITEM.MVAR v => decide (v = x)
  | MITEM.MNEG i => i.mentions x
  | MITEM.MADD l r => l.mentions x || r.mentions x
  | MITEM.MSUB l r => l.mentions x || r.mentions x
  | MITEM.MMUL l r => l.mentions x || r.mentions x
  | MITEM.MDIV l r => l.mentions x || r.mentions x
  | MITEM.MPOW l r => l.mentions x || r.mentions x
  | MITEM.MF1D _ i => i.mentions x
  | MITEM.MINTEGRAL e _ => e.mentions x
  | _ => false

/-- Substitution of an expression for a variable, for the sample algebra. -/
def MITEM.subst (x : MVariable) (t : MITEM) : MITEM → MITEM
  | MITEM.MVAR v => if v = x then t else MITEM.MVAR v
  | MITEM.MNEG i => MITEM.MNEG (MITEM.subst x t i)
  | MITEM.MADD l r => MITEM.MADD (MITEM.subst x t l) (MITEM.subst x t r)
  | MITEM.MSUB l r => MITEM.MSUB (MITEM.subst x t l) (MITEM.subst x t r)
  | MITEM.MMUL l r => MITEM.MMUL (MITEM.subst x t l) (MITEM.subst x t r)
  | MITEM.MDIV l r => MITEM.MDIV (MITEM.subst x t l) (MITEM.subst x t r)
  | MITEM.MPOW l r => MITEM.MPOW (MITEM.subst x t l) (MITEM.subst x t r)
  | MITEM.MF1D s i => MITEM.MF1D s (MITEM.subst x t i)
  | e => e

/-- A small instance of the algebra whose operators build the expression
without simplifying, whose simplification and expansion are the identity,
and whose dependency test looks for the variable in the tree. -/
def freeMath : MMath :=
  { MEvaluate := id, MExpand := id
    MReplace := fun e x t => MITEM.subst x t e
    is_dependent := fun e x => e.mentions x
    neg := MITEM.MNEG, add := MITEM.MADD, sub := MITEM.MSUB, mul := MITEM.MMUL
    div := MITEM.MDIV, pow := MITEM.MPOW
    ofDouble := MITEM.MCONST, Fraction := MITEM.MFRAC
    isConst := fun e => match e with
      | MITEM.MCONST _ => true
      | _ => false
    is_int := fun e => match e with
      | MITEM.MCONST v => decide (v.den = 1)
      | _ => false
    is_number := fun e => match e with
      | MITEM.MCONST _ => true
      | MITEM.MFRAC _ _ => true
      | MITEM.MNAMED _ _ => true
      | _ => false
    value := fun e => match e with
      | MITEM.MCONST v => v
      | _ => 0
    mnumber_value := fun e => match e with
      | MITEM.MCONST v => v
      | MITEM.MFRAC n d => n / d
      | MITEM.MNAMED _ v => v
      | _ => 0
    Log := MITEM.MF1D "log", Abs := MITEM.MF1D "abs", Sin := MITEM.MF1D "sin"
    Cos := MITEM.MF1D "cos", Tan := MITEM.MF1D "tan", Cot := MITEM.MF1D "cot"
    Sec := MITEM.MF1D "sec", Csc := MITEM.MF1D "csc", Sinh := MITEM.MF1D "sinh"
    Cosh := MITEM.MF1D "cosh", Atan := MITEM.MF1D "atan", Exp := MITEM.MF1D "exp" }

/-! ## Sample data -/

/-- A projected point of a poro-enabled surface in pure-penalty mode
(multiplier 0) with unit penalties, a pressure gap, and the signed normal gap
`+1` (positive separation): its gap function is `-1`. -/
def separatedSurface : FESlidingSurface3 :=
  { FESlidingSurface3.fresh with
    m_el := [⟨1⟩], m_bporo := true, m_pme := [some 0], m_Lmd := [0], m_epsn := [1],
    m_gap := [-1], m_epsp := [1], m_pg := [3] }

/-- A projected point in pure-penalty mode (multiplier 0) with penalty 2 and
the signed normal gap `-3` (penetration): its gap function is `3`. -/
def penetratedSurface : FESlidingSurface3 :=
  { FESlidingSurface3.fresh with
    m_el := [⟨1⟩], m_pme := [some 0], m_Lmd := [0], m_epsn := [2], m_gap := [3] }

/-- Geometry of a point with one displacement equation of unit weight. -/
def unitGeom : PointGeom :=
  { lm := [0], N := [1], lmp := [], Np := [], lmc := [], Nc := [], detJ := 1, w := 1 }

/-- The words of section 4.4 for one surface: every normal-gap violation of a
projected point in contact is within `gtol`, and, where enabled, every
pressure-gap and concentration-gap violation of a projected point is within
`ptol`, respectively `ctol`. -/
def FESlidingSurface3.withinTolerance (s : FESlidingSurface3) (gtol ptol ctol : ℚ) : Prop :=
  (∀ n, n < s.m_gap.length → s.projected n = true → 0 < s.normalTraction n →
    |s.m_gap.getD n 0| ≤ gtol) ∧
  (s.m_bporo = true → ∀ n, n < s.m_pg.length → s.projected n = true →
    |s.m_pg.getD n 0| ≤ ptol) ∧
  (s.m_bsolu = true → ∀ n, n < s.m_cg.length → s.projected n = true →
    |s.m_cg.getD n 0| ≤ ctol)

/-- The words of section 4.4 for the interface: every gap violation, on both
surfaces, is within its tolerance `m_gtol`, `m_ptol`, `m_ctol`. -/
def FESlidingInterface3.withinTolerance (ci : FESlidingInterface3) : Prop :=
  ci.m_ss.withinTolerance ci.m_gtol ci.m_ptol ci.m_ctol ∧
  ci.m_ms.withinTolerance ci.m_gtol ci.m_ptol ci.m_ctol

/-- Two surfaces carry identical per-point multipliers (`m_Lmd`, `m_Lmp`,
`m_Lmc`), gaps (`m_gap`, `m_pg`, `m_cg`) and projection state (`m_pme`, `m_rs`). -/
def samePointState (a b : FESlidingSurface3) : Prop :=
  a.m_Lmd = b.m_Lmd ∧ a.m_Lmp = b.m_Lmp ∧ a.m_Lmc = b.m_Lmc ∧
  a.m_gap = b.m_gap ∧ a.m_pg = b.m_pg ∧ a.m_cg = b.m_cg ∧
  a.m_pme = b.m_pme ∧ a.m_rs = b.m_rs

/-- What an augmentation does to one surface, in the words of section 4.4:
`after` is `before` with every normal multiplier replaced by
`max(0, λ_n + ε_n * gap_n)`, every pressure and concentration multiplier by
`λ + ε * gap` (not clamped), and gaps, projections and penalty factors as
they were. -/
def IsAugmentationOf (before after : FESlidingSurface3) : Prop :=
  after.m_Lmd.length = before.m_Lmd.length ∧
  (∀ n, n < before.m_Lmd.length → after.m_Lmd.getD n 0 =
    max 0 (before.m_Lmd.getD n 0 + before.m_epsn.getD n 0 * before.m_gap.getD n 0)) ∧
  after.m_Lmp.length = before.m_Lmp.length ∧
  (∀ n, n < before.m_Lmp.length → after.m_Lmp.getD n 0 =
    before.m_Lmp.getD n 0 + before.m_epsp.getD n 0 * before.m_pg.getD n 0) ∧
  after.m_Lmc.length = before.m_Lmc.length ∧
  (∀ n, n < before.m_Lmc.length → after.m_Lmc.getD n 0 =
    before.m_Lmc.getD n 0 + before.m_epsc.getD n 0 * before.m_cg.getD n 0) ∧
  after.m_gap = before.m_gap ∧ after.m_pg = before.m_pg ∧ after.m_cg = before.m_cg ∧
  after.m_pme = before.m_pme ∧ after.m_rs = before.m_rs ∧
  after.m_epsn = before.m_epsn ∧ after.m_epsp = before.m_epsp ∧
  after.m_epsc = before.m_epsc

/-- An interface with one projected slave point that penetrates by 1/2 with
multiplier 1/4 and unit penalty, gap tolerance 1/10, at most 3 augmentations. -/
def sampleInterface : FESlidingInterface3 :=
  { FESlidingInterface3.fresh with
    m_ss := { FESlidingSurface3.fresh with
      m_el := [⟨1⟩], m_pme := [some 0], m_Lmd := [1/4], m_epsn := [1], m_gap := [1/2],
      m_Lmp := [0], m_Lmc := [0], m_epsp := [0], m_epsc := [0], m_pg := [0], m_cg := [0] }
    m_ms := { FESlidingSurface3.fresh with m_el := [⟨1⟩] }
    m_gtol := 1/10, m_naugmax := 3 }

/-! ## `FECore/tens3dls.hpp`: third-order tensors with left minor symmetry -/

/-- The number `NNZ` of stored components. -/
def NNZ : Nat := 18

/-- The class `tens3dls`: the packed array `double d[NNZ]`, addressed by index. -/
structure tens3dls where
  d : Nat → ℚ

/-- The class `tens3drs` (right minor symmetry): the packed array `double d[NNZ]`. -/
structure tens3drs where
  d : Nat → ℚ

/-- The class `mat3d`: the array `double d[3][3]`, `F(i,j)` being `d[i][j]`. -/
structure mat3d where
  d : Nat → Nat → ℚ

/-- The identity matrix. -/
def mat3d.identity : mat3d := ⟨fun i j => if i = j then 1 else 0⟩

/-- The method `tens3drs tens3dls::transpose()`: the 18 assignments `GRC.d[k] = d[l]`
of the source, line by line.  The method is not declared `const`; the second
component is the tensor it was called on, after the call. -/
def tens3dls.transpose (t : tens3dls) : tens3drs × tens3dls :=
  (⟨fun k =>
    match k with
    | 0 => t.d 0
    | 1 => t.d 3
    | 2 => t.d 6
    | 3 => t.d 9
    | 4 => t.d 12
    | 5 => t.d 15
    | 6 => t.d 1
    | 7 => t.d 4
    | 8 => t.d 7
    | 9 => t.d 10
    | 10 => t.d 13
    | 11 => t.d 16
    | 12 => t.d 2
    | 13 => t.d 5
    | 14 => t.d 8
    | 15 => t.d 11
    | 16 => t.d 14
    | 17 => t.d 17
    | _ => 0⟩, t)

/-- The method `tens3dls tens3dls::operator * (const mat3d& F) const`: the 18
assignments of the source, line by line. -/
def tens3dls.mulMat (t : tens3dls) (F : mat3d) : tens3dls :=
  ⟨fun k =>
    match k with
    | 0 => t.d 0 * F.d 0 0 + t.d 1 * F.d 1 0 + t.d 2 * F.d 2 0
    | 1 => t.d 0 * F.d 0 1 + t.d 1 * F.d 1 1 + t.d 2 * F.d 2 1
    | 2 => t.d 0 * F.d 0 2 + t.d 1 * F.d 1 2 + t.d 2 * F.d 2 2
    | 3 => t.d 3 * F.d 0 0 + t.d 4 * F.d 1 0 + t.d 5 * F.d 2 0
    | 4 => t.d 3 * F.d 0 1 + t.d 4 * F.d 1 1 + t.d 5 * F.d 2 1
    | 5 => t.d 3 * F.d 0 2 + t.d 4 * F.d 1 2 + t.d 5 * F.d 2 2
    | 6 => t.d 6 * F.d 0 0 + t.d 7 * F.d 1 0 + t.d 8 * F.d 2 0
    | 7 => t.d 6 * F.d 0 1 + t.d 7 * F.d 1 1 + t.d 8 * F.d 2 1
    | 8 => t.d 6 * F.d 0 2 + t.d 7 * F.d 1 2 + t.d 8 * F.d 2 2
    | 9 => t.d 9 * F.d 0 0 + t.d 10 * F.d 1 0 + t.d 11 * F.d 2 0
    | 10 => t.d 9 * F.d 0 1 + t.d 10 * F.d 1 1 + t.d 11 * F.d 2 1
    | 11 => t.d 9 * F.d 0 2 + t.d 10 * F.d 1 2 + t.d 11 * F.d 2 2
    | 12 => t.d 12 * F.d 0 0 + t.d 13 * F.d 1 0 + t.d 14 * F.d 2 0
    | 13 => t.d 12 * F.d 0 1 + t.d 13 * F.d 1 1 + t.d 14 * F.d 2 1
    | 14 => t.d 12 * F.d 0 2 + t.d 13 * F.d 1 2 + t.d 14 * F.d 2 2
    | 15 => t.d 15 * F.d 0 0 + t.d 16 * F.d 1 0 + t.d 17 * F.d 2 0
    | 16 => t.d 15 * F.d 0 1 + t.d 16 * F.d 1 1 + t.d 17 * F.d 2 1
    | 17 => t.d 15 * F.d 0 2 + t.d 16 * F.d 1 2 + t.d 17 * F.d 2 2
    | _ => 0⟩

/-- The index map of the transpose: stored component `k = 6*i + p` of the
result is stored component `3*p + i` of the argument. -/
def transposeIndex (k : Fin 18) : Fin 18 :=
  ⟨3 * (k.val % 6) + k.val / 6, by omega⟩

/-- The inverse index map: component `l = 3*p + i` goes to `6*i + p`. -/
def transposeIndexInv (l : Fin 18) : Fin 18 :=
  ⟨6 * (l.val % 3) + l.val / 3, by omega⟩

/-- A sample tensor whose component `k` is `k + 1`. -/
def sampleTens : tens3dls := ⟨fun k => (k : ℚ) + 1⟩

/-! ## `FEBioMech/FEElasticMultiscaleDomain1O.cpp` and `FECore/FEDomain.cpp` -/

/-- The data of one integration point that `Initialize` touches: the
deformation gradient `m_F` of the elastic material point, and `m_F_prev` and
the RVE model `m_rve` of the micro material point. -/
structure MicroPoint (ρ : Type) where
  m_F      : mat3d
  m_F_prev : mat3d
  m_rve    : ρ

/-- A solid element of the domain: its ID and its material points, one per
integration point. -/
structure FESolidElement (ρ : Type) where
  m_nID   : Int
  m_State : List (MicroPoint ρ)

/-- The number of integration points, `GaussPoints()`. -/
def FESolidElement.GaussPoints {ρ : Type} (el : FESolidElement ρ) : Int :=
  Int.ofNat el.m_State.length

/-- The class `FEMicroProbe`: element ID, 1-based integration point number,
output file. -/
structure FEMicroProbe where
  m_neid   : Int
  m_ngp    : Int
  m_szfile : String
deriving DecidableEq, Repr

/-- The class `FEMicroMaterial`: the master RVE and the probes. -/
structure FEMicroMaterial (ρ : Type) where
  m_mrve  : ρ
  m_probe : List FEMicroProbe

/-- The material `m_pMat` of the domain: ID, name, and the result of
`dynamic_cast<FEMicroMaterial*>` (`none` when it is not a micro material). -/
structure FEMaterial (ρ : Type) where
  GetID   : Int
  GetName : String
  micro   : Option (FEMicroMaterial ρ)

/-- The domain `FEElasticMultiscaleDomain1O`: its material pointer (`none` for
the null pointer) and its elements. -/
structure FEElasticMultiscaleDomain1O (ρ : Type) where
  m_pMat : Option (FEMaterial ρ)
  m_Elem : List (FESolidElement ρ)

/-- The function `FEDomain::FindElementFromID(int nid)`: the first element, in
storage order, whose `m_nID` equals `nid`; `none` for the null pointer. -/
def FindElementFromID {ρ : Type} : List (FESolidElement ρ) → Int → Option (FESolidElement ρ)
  | [], _ => none
  | el :: rest, nid => if el.m_nID = nid then some el else FindElementFromID rest nid

/-- The arguments of a call of `fecore_error`: format string, probe number,
material ID and material name. -/
structure ErrorMsg where
  fmt     : String
  probe   : Int
  matID   : Int
  matName : String
deriving DecidableEq, Repr

/-- An object `FERVEProbe(fem, mmpt.m_rve, p.m_szfile)`: the RVE it watches,
given by its element and its 0-based integration point, and the file. -/
structure FERVEProbe where
  m_neid   : Int
  ngp      : Int
  m_szfile : String
deriving DecidableEq, Repr

/-- The body of the loop over the integration points:
`mmpt.m_F_prev = pt.m_F; mmpt.m_rve.CopyFrom(rve); mmpt.m_rve.Init();` -/
def initMicroPoint {ρ : Type} (CopyFrom : ρ → ρ → ρ) (Init : ρ → ρ) (rve : ρ)
    (pt : MicroPoint ρ) : MicroPoint ρ :=
  { pt with m_F_prev := pt.m_F, m_rve := Init (CopyFrom pt.m_rve rve) }

/-- The loop over all elements and their integration points. -/
def initMicroPoints {ρ : Type} (CopyFrom : ρ → ρ → ρ) (Init : ρ → ρ) (rve : ρ)
    (elems : List (FESolidElement ρ)) : List (FESolidElement ρ) :=
  elems.map (fun el => { el with m_State := el.m_State.map (initMicroPoint CopyFrom Init rve) })

/-- The loop `for (int i=0; i<NP; ++i)` that creates the probes, from probe
`i` on: the returned flag, the errors reported and the probes created.
`fecore_error` (declared in `FECore/log.h`) is a parameter: it reports the
message and its result is returned. -/
def createProbes {ρ : Type} (fecore_error : ErrorMsg → Bool)
    (elems : List (FESolidElement ρ)) (mat : FEMaterial ρ) :
    Nat → List FEMicroProbe → List FERVEProbe → Bool × List ErrorMsg × List FERVEProbe
  | _, [], made => (true, [], made)
  | i, p :: ps, made =>
    match FindElementFromID elems p.m_neid with
    | some pel =>
      let nint := pel.GaussPoints
      let ngp := p.m_ngp - 1
      if 0 ≤ ngp ∧ ngp < nint then
        createProbes fecore_error elems mat (i + 1) ps
          (made ++ [{ m_neid := pel.m_nID, ngp := ngp, m_szfile := p.m_szfile }])
      else
        let msg : ErrorMsg :=
          { fmt := "Invalid gausspt number for micro-probe %d in material %d (%s)",
            probe := Int.ofNat i + 1, matID := mat.GetID, matName := mat.GetName }
        (fecore_error msg, [msg], made)
    | none =>
      let msg : ErrorMsg :=
        { fmt := "Invalid Element ID for micro probe %d in material %d (%s)",
          probe := Int.ofNat i + 1, matID := mat.GetID, matName := mat.GetName }
      (fecore_error msg, [msg], made)

/-- Outcome of `Initialize`: the returned flag, the domain, the errors
reported and the probes created. -/
structure InitializeResult (ρ : Type) where
  ret    : Bool
  dom    : FEElasticMultiscaleDomain1O ρ
  errors : List ErrorMsg
  probes : List FERVEProbe

/-- The function `FEElasticMultiscaleDomain1O::Initialize(FEModel& fem)`.
`baseInit` is `FEElasticSolidDomain::Initialize(fem)` (its result and the
domain it leaves), `CopyFrom` and `Init` are the methods of the RVE model.
The source tests `m_pMat == 0` after the cast and then dereferences the cast
pointer `pmat`: for a material that is not a micro material the behaviour is
undefined, which is the result `none`. -/
def FEElasticMultiscaleDomain1O.Initialize {ρ : Type}
    (baseInit : FEElasticMultiscaleDomain1O ρ → Bool × FEElasticMultiscaleDomain1O ρ)
    (CopyFrom : ρ → ρ → ρ) (Init : ρ → ρ) (fecore_error : ErrorMsg → Bool)
    (dom : FEElasticMultiscaleDomain1O ρ) : Option (InitializeResult ρ) :=
  let b := baseInit dom
  if b.1 = false then some { ret := false, dom := b.2, errors := [], probes := [] }
  else
    match b.2.m_pMat with
    | none => some { ret := false, dom := b.2, errors := [], probes := [] }
    | some mat =>
      match mat.micro with
      | none => none
      | some pmat =>
        let elems := initMicroPoints CopyFrom Init pmat.m_mrve b.2.m_Elem
        let r := createProbes fecore_error elems mat 0 pmat.m_probe []
        some { ret := r.1, dom := { b.2 with m_Elem := elems }, errors := r.2.1,
               probes := r.2.2 }

/-- The condition of the source on one probe: an element with its ID is found
and its integration point number, made 0-based, is within the element. -/
def probeValid {ρ : Type} (elems : List (FESolidElement ρ)) (p : FEMicroProbe) : Prop :=
  ∃ el, FindElementFromID elems p.m_neid = some el ∧ 1 ≤ p.m_ngp ∧ p.m_ngp ≤ el.GaussPoints

/-- A sample domain: one element with ID 7 and two integration points, a
micro material with one probe. -/
def sampleMicroDomain (probe : FEMicroProbe) : FEElasticMultiscaleDomain1O Nat :=
  { m_pMat := some { GetID := 1, GetName := "rve", micro := some { m_mrve := 0, m_probe := [probe] } }
    m_Elem := [{ m_nID := 7, m_State := [⟨⟨fun _ _ => 0⟩, ⟨fun _ _ => 0⟩, 0⟩,
                                          ⟨⟨fun _ _ => 0⟩, ⟨fun _ _ => 0⟩, 0⟩] }] }

/-! ## `FEMultiphasicShellDomain.cpp`: `Initialize` and `PreSolveUpdate` -/

/-- The data of a `FEMultigenSBMMaterialPoint` that `PreSolveUpdate` touches. -/
structure FEMultigenSBMMaterialPoint where
  m_ngen   : Int
  m_gsbmr  : List (List ℚ)
  m_gsbmrp : List (List ℚ)

/-- The material point of a shell integration point: the fields of
`FEElasticMaterialPoint` (`m_r0`, `m_rt`, `m_F`, `m_J`), of
`FEBiphasicMaterialPoint` (`m_Jp`, `m_phi0`, `m_phi0p`), of
`FESolutesMaterialPoint` (`m_nsbm`, `m_ca`, `m_crp`, `m_sbmr`, `m_sbmrp`,
`m_sbmrhat`) that the two routines read or write, and the optional
`FEMultigenSBMMaterialPoint`. -/
structure ShellPoint where
  m_r0      : vec3d
  m_rt      : vec3d
  m_F       : mat3d
  m_J       : ℚ
  m_Jp      : ℚ
  m_phi0    : ℚ
  m_phi0p   : ℚ
  m_nsbm    : Int
  m_ca      : List ℚ
  m_crp     : List ℚ
  m_sbmr    : List ℚ
  m_sbmrp   : List ℚ
  m_sbmrhat : List ℚ
  pmg       : Option FEMultigenSBMMaterialPoint

/-- A shell element: ID, node numbers, and its material points, one per
integration point. -/
structure FEShellElement where
  m_nID   : Int
  m_node  : List Int
  m_State : List ShellPoint

/-- The material `FEMultiphasic` as far as the two routines use it: the
initial densities `GetSBM(i)->m_rho0` of the solid-bound molecules
(`SBMs()` is their number), the number of solutes and of reactions. -/
structure FEMultiphasic where
  sbm_rho0  : List ℚ
  Solutes   : Nat
  Reactions : Nat

/-- The domain `FEMultiphasicShellDomain`: its material and its elements. -/
structure FEMultiphasicShellDomain where
  m_pMat : FEMultiphasic
  m_Elem : List FEShellElement

/-- One block of error output of `Initialize`: the 1-based integration point,
the element ID, the Jacobian, and the 1-based node numbers. -/
structure InvertedShell where
  point    : Int
  element  : Int
  Jacobian : ℚ
  nodes    : List Int
deriving DecidableEq, Repr

/-- The loop of `Initialize` over the material points that stores the
solid-bound molecule densities:
`ps.m_sbmr = sbmr; ps.m_sbmrp = sbmr; ps.m_sbmrhat.assign(nsbm, 0);` -/
def initSBM (sbmr : List ℚ) (elems : List FEShellElement) : List FEShellElement :=
  elems.map (fun el => { el with m_State := el.m_State.map (fun ps =>
    { ps with m_sbmr := sbmr, m_sbmrp := sbmr, m_sbmrhat := List.replicate sbmr.length 0 }) })

/-- The inner loop `for (int n=0; n<nint; ++n)` of the check for inverted
shells, on the loop variables `bmerr` and the output. -/
def checkElement (detJ0 : FEShellElement → Nat → ℚ) (el : FEShellElement)
    (st : Bool × List InvertedShell) : Bool × List InvertedShell :=
  (List.range el.m_State.length).foldl (fun st n =>
    let J0 := detJ0 el n
    if J0 ≤ 0 then
      (true, st.2 ++ [{ point := Int.ofNat n + 1, element := el.m_nID, Jacobian := J0,
                        nodes := el.m_node.map (fun k => k + 1) }])
    else st) st

/-- The function `FEMultiphasicShellDomain::Initialize()`.  `baseInit` is
`FESSIShellDomain::Initialize()`, `SetLocalCoordinateSystem el n mp` the
method of the elastic material, `detJ0 el n` the initial Jacobian at
integration point `n`.  Returns `bmerr == false`, the domain and the output. -/
def FEMultiphasicShellDomain.Initialize
    (baseInit : FEMultiphasicShellDomain → FEMultiphasicShellDomain)
    (SetLocalCoordinateSystem : FEShellElement → Nat → ShellPoint → ShellPoint)
    (detJ0 : FEShellElement → Nat → ℚ)
    (dom : FEMultiphasicShellDomain) : Bool × FEMultiphasicShellDomain × List InvertedShell :=
  let d1 := baseInit dom
  let e1 := d1.m_Elem.map (fun el =>
    { el with m_State := el.m_State.mapIdx (fun n mp => SetLocalCoordinateSystem el n mp) })
  let sbmr := d1.m_pMat.sbm_rho0
  let e2 := initSBM sbmr e1
  let st := e2.foldl (fun st el => checkElement detJ0 el st) (false, [])
  (st.1 = false, { d1 with m_Elem := e2 }, st.2)

/-- A node of the mesh: reference and current position. -/
structure FENode where
  m_r0 : vec3d
  m_rt : vec3d

/-- The first `k` passes of
`for (int j=0; j<m_pMat->Solutes(); ++j) ps.m_crp[j] = pe.m_J*m_pMat->Porosity(mp)*ps.m_ca[j];` -/
def resetCrp (Porosity : ShellPoint → ℚ) (mp : ShellPoint) : Nat → ShellPoint
  | 0 => mp
  | k + 1 =>
    let mp1 := resetCrp Porosity mp k
    { mp1 with m_crp := mp1.m_crp.set k (mp1.m_J * Porosity mp1 * mp1.m_ca.getD k 0) }

/-- The first `k` passes of
`for (int j=0; j<ps.m_nsbm; ++j) ps.m_sbmrp[j] = ps.m_sbmr[j];` -/
def resetSbmrp (mp : ShellPoint) : Nat → ShellPoint
  | 0 => mp
  | k + 1 =>
    let mp1 := resetSbmrp mp k
    { mp1 with m_sbmrp := mp1.m_sbmrp.set k (mp1.m_sbmr.getD k 0) }

/-- The loops `if (&pmg) for (i<pmg.m_ngen) for (j<ps.m_nsbm)
pmg.m_gsbmrp[i][j] = pmg.m_gsbmr[i][j];` -/
def resetGenerations (nsbm : Nat) (g : FEMultigenSBMMaterialPoint) :
    FEMultigenSBMMaterialPoint :=
  { g with m_gsbmrp := (List.range g.m_gsbmrp.length).map (fun i =>
      if i < g.m_ngen.toNat then
        (List.range (g.m_gsbmrp.getD i []).length).map (fun j =>
          if j < nsbm then (g.m_gsbmr.getD i []).getD j 0 else (g.m_gsbmrp.getD i []).getD j 0)
      else g.m_gsbmrp.getD i []) }

/-- The assignments of `PreSolveUpdate` up to the reset of the previous-time
determinant and solid volume fraction:
`pe.m_r0 = r0; pe.m_rt = rt; pe.m_J = defgrad(el, pe.m_F, j); pt.m_Jp = pe.m_J;
pt.m_phi0p = pt.m_phi0;` with `FJ` the deformation gradient and the
determinant that `defgrad` delivers. -/
def resetKinematics (r0 rt : vec3d) (FJ : mat3d × ℚ) (mp : ShellPoint) : ShellPoint :=
  let mp1 := { mp with m_r0 := r0, m_rt := rt, m_F := FJ.1, m_J := FJ.2 }
  let mp2 := { mp1 with m_Jp := mp1.m_J }
  { mp2 with m_phi0p := mp2.m_phi0 }

/-- The assignments of `PreSolveUpdate` for one integration point, before the
reactions and `mp.Update` are called. -/
def resetPoint (mat : FEMultiphasic) (Porosity : ShellPoint → ℚ) (r0 rt : vec3d)
    (FJ : mat3d × ℚ) (mp : ShellPoint) : ShellPoint :=
  let mp3 := resetKinematics r0 rt FJ mp
  let mp4 := resetCrp Porosity mp3 mat.Solutes
  let mp5 := resetSbmrp mp4 mp4.m_nsbm.toNat
  { mp5 with pmg := mp5.pmg.map (resetGenerations mp5.m_nsbm.toNat) }

/-- The function `FEMultiphasicShellDomain::PreSolveUpdate(timeInfo)`.
`basePreSolve` is `FESSIShellDomain::PreSolveUpdate`, `Node` the mesh,
`Evaluate el x j` the interpolation of nodal values at integration point `j`,
`defgrad el j` the deformation gradient and its determinant at `j`,
`InitializeElementData` the loop over the reactions and `mpUpdate` the call
`mp.Update(timeInfo)`. -/
def FEMultiphasicShellDomain.PreSolveUpdate
    (basePreSolve : FEMultiphasicShellDomain → FEMultiphasicShellDomain)
    (Node : Int → FENode) (Evaluate : FEShellElement → List vec3d → Nat → vec3d)
    (defgrad : FEShellElement → Nat → mat3d × ℚ) (Porosity : ShellPoint → ℚ)
    (InitializeElementData : ShellPoint → ShellPoint) (mpUpdate : ShellPoint → ShellPoint)
    (dom : FEMultiphasicShellDomain) : FEMultiphasicShellDomain :=
  let d1 := basePreSolve dom
  { d1 with m_Elem := d1.m_Elem.map (fun el =>
      let x0 := el.m_node.map (fun k => (Node k).m_r0)
      let xt := el.m_node.map (fun k => (Node k).m_rt)
      { el with m_State := el.m_State.mapIdx (fun j mp =>
          mpUpdate (InitializeElementData
            (resetPoint d1.m_pMat Porosity (Evaluate el x0 j) (Evaluate el xt j)
              (defgrad el j) mp))) }) }

/-- A sample material point with two solutes and two solid-bound molecules. -/
def samplePoint : ShellPoint :=
  { m_r0 := ⟨0, 0, 0⟩, m_rt := ⟨0, 0, 0⟩, m_F := ⟨fun _ _ => 0⟩, m_J := 1, m_Jp := 1,
    m_phi0 := 1/5, m_phi0p := 0, m_nsbm := 2, m_ca := [3, 4], m_crp := [0, 0],
    m_sbmr := [5, 6], m_sbmrp := [0, 0], m_sbmrhat := [0, 0], pmg := none }

/-- A sample shell domain: one element with two integration points and one
solid-bound molecule of initial density 9. -/
def sampleShellDomain : FEMultiphasicShellDomain :=
  { m_pMat := { sbm_rho0 := [9], Solutes := 2, Reactions := 0 }
    m_Elem := [{ m_nID := 4, m_node := [0, 1, 2, 3], m_State := [samplePoint, samplePoint] }] }

/-- The error blocks of one element: one for every integration point whose
initial Jacobian is not positive, in order. -/
def invertedPoints (detJ0 : FEShellElement → Nat → ℚ) (el : FEShellElement) :
    List InvertedShell :=
  (List.range el.m_State.length).filterMap (fun n =>
    if detJ0 el n ≤ 0 then
      some { point := Int.ofNat n + 1, element := el.m_nID, Jacobian := detJ0 el n,
             nodes := el.m_node.map (fun k => k + 1) }
    else none)

/-! ## Reading expressions as real functions of the integration variable -/

/-- The meaning of the symbolic algebra as real functions of the variable
`x`: `den e t` is the value of the expression `e` when `x` has the value `t`.
The fields state that the constructors of `MMath.h` used by the closed-form
rules of `MIntegral` build what their names say (natural logarithm, absolute
value, the trigonometric and hyperbolic functions and their reciprocals, the
arc tangent, the exponential, the quotient and the product), and that a
function node, a power node, a product node and a number mean what they
denote. -/
structure Denotes (M : MMath) (x : MVariable) (den : MITEM → ℝ → ℝ) : Prop where
  var  : ∀ t, den (MITEM.MVAR x) t = t
  neg  : ∀ p t, den (M.neg p) t = -den p t
  add  : ∀ p q t, den (M.add p q) t = den p t + den q t
  mul  : ∀ p q t, den (M.mul p q) t = den p t * den q t
  div  : ∀ p q t, den (M.div p q) t = den p t / den q t
  Log  : ∀ p t, den (M.Log p) t = Real.log (den p t)
  Abs  : ∀ p t, den (M.Abs p) t = |den p t|
  Sin  : ∀ p t, den (M.Sin p) t = Real.sin (den p t)
  Cos  : ∀ p t, den (M.Cos p) t = Real.cos (den p t)
  Tan  : ∀ p t, den (M.Tan p) t = Real.tan (den p t)
  Cot  : ∀ p t, den (M.Cot p) t = Real.cos (den p t) / Real.sin (den p t)
  Sec  : ∀ p t, den (M.Sec p) t = 1 / Real.cos (den p t)
  Csc  : ∀ p t, den (M.Csc p) t = 1 / Real.sin (den p t)
  Sinh : ∀ p t, den (M.Sinh p) t = Real.sinh (den p t)
  Cosh : ∀ p t, den (M.Cosh p) t = Real.cosh (den p t)
  Atan : ∀ p t, den (M.Atan p) t = Real.arctan (den p t)
  Exp  : ∀ p t, den (M.Exp p) t = Real.exp (den p t)
  f_cos  : ∀ p t, den (MITEM.MF1D "cos" p) t = Real.cos (den p t)
  f_sin  : ∀ p t, den (MITEM.MF1D "sin" p) t = Real.sin (den p t)
  f_tan  : ∀ p t, den (MITEM.MF1D "tan" p) t = Real.tan (den p t)
  f_cot  : ∀ p t, den (MITEM.MF1D "cot" p) t = Real.cos (den p t) / Real.sin (den p t)
  f_sec  : ∀ p t, den (MITEM.MF1D "sec" p) t = 1 / Real.cos (den p t)
  f_csc  : ∀ p t, den (MITEM.MF1D "csc" p) t = 1 / Real.sin (den p t)
  f_sinh : ∀ p t, den (MITEM.MF1D "sinh" p) t = Real.sinh (den p t)
  f_cosh : ∀ p t, den (MITEM.MF1D "cosh" p) t = Real.cosh (den p t)
  f_tanh : ∀ p t, den (MITEM.MF1D "tanh" p) t = Real.tanh (den p t)
  f_sech : ∀ p t, den (MITEM.MF1D "sech" p) t = 1 / Real.cosh (den p t)
  f_exp  : ∀ p t, den (MITEM.MF1D "exp" p) t = Real.exp (den p t)
  mpow : ∀ l r t, den (MITEM.MPOW l r) t = den l t ^ den r t
  mmul : ∀ l r t, den (MITEM.MMUL l r) t = den l t * den r t
  number : ∀ l, M.is_number l = true → ∀ t, den l t = (M.mnumber_value l : ℝ)

/-- The meaning of a function node of the sample algebra, by its name. -/
noncomputable def freeF1D (s : String) (v : ℝ) : ℝ :=
  if s = "sin" then Real.sin v
  else if s = "cos" then Real.cos v
  else if s = "tan" then Real.tan v
  else if s = "cot" then Real.cos v / Real.sin v
  else if s = "sec" then 1 / Real.cos v
  else if s = "csc" then 1 / Real.sin v
  else if s = "sinh" then Real.sinh v
  else if s = "cosh" then Real.cosh v
  else if s = "tanh" then Real.tanh v
  else if s = "sech" then 1 / Real.cosh v
  else if s = "exp" then Real.exp v
  else if s = "log" then Real.log v
  else if s = "abs" then |v|
  else if s = "atan" then Real.arctan v
  else 0

/-- The meaning of the expressions of the sample algebra as real functions
of the variable `x` (other variables have the value 0). -/
noncomputable def freeDen (x : MVariable) : MITEM → ℝ → ℝ
  | MITEM.MCONST v, _ => (v : ℝ)
  | MITEM.MFRAC n d, _ => (n / d : ℚ)
  | MITEM.MNAMED _ v, _ => (v : ℝ)
  | MITEM.MVAR v, t => if v = x then t else 0
  | MITEM.MNEG p, t => -freeDen x p t
  | MITEM.MADD l r, t => freeDen x l t + freeDen x r t
  | MITEM.MSUB l r, t => freeDen x l t - freeDen x r t
  | MITEM.MMUL l r, t => freeDen x l t * freeDen x r t
  | MITEM.MDIV l r, t => freeDen x l t / freeDen x r t
  | MITEM.MPOW l r, t => freeDen x l t ^ freeDen x r t
  | MITEM.MF1D s p, t => freeF1D s (freeDen x p t)
  | MITEM.MINTEGRAL _ _, _ => 0
  | MITEM.MOTHER _, _ => 0

/-! ## Theorems -/

/-- Assembling an element vector of zeros leaves the global vector unchanged. -/
theorem assemble_zero (lm : List Nat) (N : List ℚ) (F : Nat → ℚ) :
    assemble F lm (N.map (fun _ => (0 : ℚ))) = F := by
  induction lm generalizing N F with
  | nil => cases N <;> rfl
  | cons eq lm ih =>
    cases N with
    | nil => rfl
    | cons v N =>
      simp only [List.map_cons, assemble]
      rw [ih]
      funext k
      simp

/-- C1: for every projected integration point the normal traction used by
ContactForces is max(0, λ_n + ε_n * gap_n) with λ_n = m_Lmd, ε_n = m_epsn,
gap_n = m_gap; with λ_n = 0 (pure penalty) it is max(0, ε_n * gap_n); it is
never negative; and it is the factor that enters the residual. -/
theorem normalTraction_formula (s : FESlidingSurface3) (g : PointGeom) (n : Nat)
    (F : Nat → ℚ) (hp : s.projected n = true) :
    s.normalTraction n = max 0 (s.m_Lmd.getD n 0 + s.m_epsn.getD n 0 * s.m_gap.getD n 0)
    ∧ (s.m_Lmd.getD n 0 = 0 →
        s.normalTraction n = max 0 (s.m_epsn.getD n 0 * s.m_gap.getD n 0))
    ∧ 0 ≤ s.normalTraction n
    ∧ s.pointForces g n F = s.fluxForces g n
        (assemble F g.lm (g.N.map (fun Nk =>
          max 0 (s.m_Lmd.getD n 0 + s.m_epsn.getD n 0 * s.m_gap.getD n 0) * Nk * g.detJ * g.w))) := by
  refine ⟨rfl, ?_, ?_, ?_⟩
  · intro h
    unfold FESlidingSurface3.normalTraction
    rw [h, zero_add]
  · exact le_max_left _ _
  · unfold FESlidingSurface3.pointForces
    rw [if_pos hp]
    rfl

/-- C1 witness: the penetrated sample point. -/
theorem normalTraction_formula_witness :
    penetratedSurface.projected 0 = true ∧
    penetratedSurface.normalTraction 0 = max 0
      (penetratedSurface.m_Lmd.getD 0 0
        + penetratedSurface.m_epsn.getD 0 0 * penetratedSurface.m_gap.getD 0 0) :=
  ⟨rfl, (normalTraction_formula penetratedSurface unitGeom 0 (fun _ => 0) rfl).1⟩

/-- The traction vanishes as soon as the multiplier is zero and the penalised
gap is not positive. -/
theorem normalTraction_eq_zero (s : FESlidingSurface3) (n : Nat)
    (hl : s.m_Lmd.getD n 0 = 0) (he : 0 ≤ s.m_epsn.getD n 0) (hg : s.m_gap.getD n 0 ≤ 0) :
    s.normalTraction n = 0 := by
  unfold FESlidingSurface3.normalTraction
  rw [hl, zero_add]
  exact max_eq_left (mul_nonpos_of_nonneg_of_nonpos he hg)

/-- C2: for every integration point whose normal gap indicates positive
separation (signed gap of section 4.2 positive, no penetration), with
multiplier 0 (pure-penalty mode, penalty factor not negative), the normal
traction is exactly zero, the point is not active, and it adds nothing to the
contact residual: neither its traction nor, on a poro- or solute-enabled
surface, a flux enters the loop of ContactForces. -/
theorem separation_traction_zero (s : FESlidingSurface3) (geom : Nat → PointGeom) (n : Nat)
    (F : Nat → ℚ)
    (hsep : 0 < s.signedGap n) (hl : s.m_Lmd.getD n 0 = 0) (he : 0 ≤ s.m_epsn.getD n 0) :
    s.normalTraction n = 0 ∧ s.active n = false ∧
    s.tractionForces (geom n) n F = F ∧
    s.contribution (geom n) n F = F ∧
    s.surfaceForces geom F (n + 1) = s.surfaceForces geom F n := by
  have hg : s.m_gap.getD n 0 ≤ 0 := by
    unfold FESlidingSurface3.signedGap at hsep
    linarith
  have h0 := normalTraction_eq_zero s n hl he hg
  have ha : s.active n = false := by
    unfold FESlidingSurface3.active
    rw [h0]
    simp
  have hc : ∀ G : Nat → ℚ, s.contribution (geom n) n G = G := by
    intro G
    unfold FESlidingSurface3.contribution
    rw [ha]
    rfl
  have hz : s.tractionForces (geom n) n F = F := by
    unfold FESlidingSurface3.tractionForces
    have : virtualWork (s.normalTraction n) (geom n).N (geom n).detJ (geom n).w
        = (geom n).N.map (fun _ => (0 : ℚ)) := by
      unfold virtualWork
      rw [h0]
      simp
    rw [this, assemble_zero]
  refine ⟨h0, ha, hz, hc F, ?_⟩
  show s.contribution (geom n) n (s.surfaceForces geom F n) = s.surfaceForces geom F n
  exact hc _

/-- C2 witness: the separated sample point, on a poro-enabled surface with a
pressure gap. -/
theorem separation_traction_zero_witness :
    separatedSurface.normalTraction 0 = 0 ∧ separatedSurface.active 0 = false ∧
    separatedSurface.tractionForces ((fun _ => unitGeom) 0) 0 (fun _ => 0) = (fun _ => 0) ∧
    separatedSurface.contribution ((fun _ => unitGeom) 0) 0 (fun _ => 0) = (fun _ => 0) ∧
    separatedSurface.surfaceForces (fun _ => unitGeom) (fun _ => 0) (0 + 1)
      = separatedSurface.surfaceForces (fun _ => unitGeom) (fun _ => 0) 0 :=
  separation_traction_zero separatedSurface (fun _ => unitGeom) 0 (fun _ => 0)
    (by decide) rfl (by decide)

/-- C3: for every integration point with penetration g < 0 (negative signed
normal gap, the sign convention of section 4.2) in pure-penalty mode
(multiplier 0, penalty factor not negative), the normal traction is
t_n = eps_n * |g|, and this is the value of the traction formula
max(0, lambda_n + eps_n * gap_n) with lambda_n = 0; it is not negative, and
positive when the penalty factor is. -/
theorem penetration_traction (s : FESlidingSurface3) (n : Nat)
    (hpen : s.signedGap n < 0) (hl : s.m_Lmd.getD n 0 = 0) (he : 0 ≤ s.m_epsn.getD n 0) :
    s.normalTraction n = s.m_epsn.getD n 0 * |s.signedGap n| ∧
    s.normalTraction n = max 0 (0 + s.m_epsn.getD n 0 * s.m_gap.getD n 0) ∧
    0 ≤ s.normalTraction n ∧
    (0 < s.m_epsn.getD n 0 → 0 < s.normalTraction n) := by
  have hg : 0 < s.m_gap.getD n 0 := by
    unfold FESlidingSurface3.signedGap at hpen
    linarith
  have habs : |s.signedGap n| = s.m_gap.getD n 0 := by
    rw [abs_of_neg hpen]
    unfold FESlidingSurface3.signedGap
    ring
  have ht : s.normalTraction n = s.m_epsn.getD n 0 * s.m_gap.getD n 0 := by
    unfold FESlidingSurface3.normalTraction
    rw [hl, zero_add]
    exact max_eq_right (mul_nonneg he hg.le)
  refine ⟨by rw [habs, ht], ?_, le_max_left _ _, ?_⟩
  · unfold FESlidingSurface3.normalTraction
    rw [hl]
  · intro hpos
    rw [ht]
    exact mul_pos hpos hg

/-- C3 witness: the penetrated sample point, with penalty 2 and signed gap
-3, carries the traction 2 * 3. -/
theorem penetration_traction_witness :
    penetratedSurface.normalTraction 0
      = penetratedSurface.m_epsn.getD 0 0 * |penetratedSurface.signedGap 0| ∧
    penetratedSurface.normalTraction 0
      = max 0 (0 + penetratedSurface.m_epsn.getD 0 0 * penetratedSurface.m_gap.getD 0 0) ∧
    0 ≤ penetratedSurface.normalTraction 0 ∧
    (0 < penetratedSurface.m_epsn.getD 0 0 → 0 < penetratedSurface.normalTraction 0) :=
  penetration_traction penetratedSurface 0 (by decide) rfl (by decide)

/-! ### Augmentation -/

/-- Reading entry `n` of a table built over `0, ..., len - 1`. -/
theorem getD_map_range (f : Nat → ℚ) (len n : Nat) (h : n < len) :
    ((List.range len).map f).getD n 0 = f n := by
  simp [List.getD_eq_getElem?_getD, List.getElem?_map, List.getElem?_range h]

/-- The multiplier update of a surface is an augmentation in the sense of
section 4.4. -/
theorem augment_isAugmentation (s : FESlidingSurface3) : IsAugmentationOf s s.augment := by
  unfold IsAugmentationOf FESlidingSurface3.augment
  refine ⟨by simp, ?_, by simp, ?_, by simp, ?_, rfl, rfl, rfl, rfl, rfl, rfl, rfl, rfl⟩
  · intro n h
    exact getD_map_range _ _ _ h
  · intro n h
    exact getD_map_range _ _ _ h
  · intro n h
    exact getD_map_range _ _ _ h

/-- C4: when some violation exceeds its tolerance and the augmentation count
is below m_naugmax, Augment updates every normal multiplier to
max(0, λ_n + ε_n * gap_n) and every pressure and concentration multiplier to
λ + ε * gap without clamping, on both surfaces, increases the augmentation
counter by exactly one, leaves gaps, projections and penalty factors
unchanged, and asks for another solve. -/
theorem Augment_performs_augmentation (ci : FESlidingInterface3) (naug : Int)
    (hv : ci.violation = true) (hn : naug < ci.m_naugmax) :
    IsAugmentationOf ci.m_ss (ci.Augment naug).ci.m_ss ∧
    IsAugmentationOf ci.m_ms (ci.Augment naug).ci.m_ms ∧
    (ci.Augment naug).naug = naug + 1 ∧
    (ci.Augment naug).ret = false ∧ (ci.Augment naug).stepFailure = false := by
  have h : ci.Augment naug =
      { ret := false, stepFailure := false,
        ci := { ci with m_ss := ci.m_ss.augment, m_ms := ci.m_ms.augment },
        naug := naug + 1 } := by
    unfold FESlidingInterface3.Augment
    rw [if_neg (by simp [hv]), if_pos hn]
  rw [h]
  exact ⟨augment_isAugmentation _, augment_isAugmentation _, rfl, rfl, rfl⟩

/-- The sample interface violates its gap tolerance. -/
theorem sampleInterface_violation : sampleInterface.violation = true := by
  norm_num [sampleInterface, FESlidingInterface3.violation, FESlidingSurface3.gapExceeds,
    FESlidingSurface3.fresh, FESlidingInterface3.fresh, FESlidingSurface3.projected,
    FESlidingSurface3.normalTraction, List.range, List.range.loop, abs_of_pos]

/-- C4 witness: the sample interface at augmentation count 0. -/
theorem Augment_performs_augmentation_witness :
    IsAugmentationOf sampleInterface.m_ss (sampleInterface.Augment 0).ci.m_ss ∧
    IsAugmentationOf sampleInterface.m_ms (sampleInterface.Augment 0).ci.m_ms ∧
    (sampleInterface.Augment 0).naug = 0 + 1 ∧
    (sampleInterface.Augment 0).ret = false ∧ (sampleInterface.Augment 0).stepFailure = false :=
  Augment_performs_augmentation sampleInterface 0 sampleInterface_violation (by decide)

/-- No normal-gap violation is flagged exactly when every projected point in
contact has its gap within the tolerance. -/
theorem gapExceeds_eq_false_iff (s : FESlidingSurface3) (gtol : ℚ) :
    s.gapExceeds gtol = false ↔
      ∀ n, n < s.m_gap.length → s.projected n = true → 0 < s.normalTraction n →
        |s.m_gap.getD n 0| ≤ gtol := by
  unfold FESlidingSurface3.gapExceeds
  rw [List.any_eq_false]
  simp only [List.mem_range, Bool.and_eq_true, decide_eq_true_eq, not_and, not_lt, and_imp]

/-- No pressure-gap violation is flagged exactly when poro mode is off or every
projected point has its pressure gap within the tolerance. -/
theorem pressureExceeds_eq_false_iff (s : FESlidingSurface3) (ptol : ℚ) :
    s.pressureExceeds ptol = false ↔
      (s.m_bporo = true → ∀ n, n < s.m_pg.length → s.projected n = true →
        |s.m_pg.getD n 0| ≤ ptol) := by
  unfold FESlidingSurface3.pressureExceeds
  rw [Bool.and_eq_false_imp, List.any_eq_false]
  simp only [List.mem_range, Bool.and_eq_true, decide_eq_true_eq, not_and, not_lt]

/-- No concentration-gap violation is flagged exactly when solute mode is off or
every projected point has its concentration gap within the tolerance. -/
theorem concentrationExceeds_eq_false_iff (s : FESlidingSurface3) (ctol : ℚ) :
    s.concentrationExceeds ctol = false ↔
      (s.m_bsolu = true → ∀ n, n < s.m_cg.length → s.projected n = true →
        |s.m_cg.getD n 0| ≤ ctol) := by
  unfold FESlidingSurface3.concentrationExceeds
  rw [Bool.and_eq_false_imp, List.any_eq_false]
  simp only [List.mem_range, Bool.and_eq_true, decide_eq_true_eq, not_and, not_lt]

/-- The violation test of `Augment` is negative exactly when every gap
violation is within its tolerance. -/
theorem violation_eq_false_iff (ci : FESlidingInterface3) :
    ci.violation = false ↔ ci.withinTolerance := by
  unfold FESlidingInterface3.violation FESlidingInterface3.withinTolerance
    FESlidingSurface3.withinTolerance
  simp only [Bool.or_eq_false_iff, gapExceeds_eq_false_iff, pressureExceeds_eq_false_iff,
    concentrationExceeds_eq_false_iff]
  tauto

/-- C5: Augment returns true exactly when every gap violation is within its
tolerance and at least m_naugmin augmentations have been done; in every
other case it returns false; and when the maximum count is reached without
convergence the result is false together with the report of a fatal
non-convergence, never an accepted step. -/
theorem Augment_returns_true_iff (ci : FESlidingInterface3) (naug : Int) :
    ((ci.Augment naug).ret = true ↔ (ci.withinTolerance ∧ ci.m_naugmin ≤ naug)) ∧
    (¬ (ci.withinTolerance ∧ ci.m_naugmin ≤ naug) → (ci.Augment naug).ret = false) ∧
    (¬ (ci.withinTolerance ∧ ci.m_naugmin ≤ naug) → ci.m_naugmax ≤ naug →
      (ci.Augment naug).ret = false ∧ (ci.Augment naug).stepFailure = true ∧
      (ci.Augment naug).ci = ci) ∧
    ((ci.Augment naug).stepFailure = true ↔
      (¬ (ci.withinTolerance ∧ ci.m_naugmin ≤ naug) ∧ ci.m_naugmax ≤ naug)) := by
  rw [← violation_eq_false_iff]
  unfold FESlidingInterface3.Augment
  by_cases hc : ci.violation = false ∧ ci.m_naugmin ≤ naug
  · simp [hc]
  · by_cases hn : naug < ci.m_naugmax
    · simp only [if_neg hc, if_pos hn]
      simp [hc, hn]
    · simp only [if_neg hc, if_neg hn]
      simp [hc, not_lt.mp hn]

/-! ### Initialisation -/

/-- Initialising a surface succeeds exactly when it has elements, and keeps
the mode flags and the species count. -/
theorem surfaceInit_spec (s : FESlidingSurface3) :
    (s.Init.1 = true ↔ s.m_el ≠ []) ∧ s.Init.2.m_bporo = s.m_bporo ∧
    s.Init.2.m_bsolu = s.m_bsolu ∧ s.Init.2.m_nsol = s.m_nsol := by
  unfold FESlidingSurface3.Init
  cases h : s.m_el with
  | nil => simp
  | cons a l => simp

/-- The species test gives the same answer before and after the surfaces
are initialised. -/
theorem speciesMismatch_init (ss ms : FESlidingSurface3) :
    speciesMismatch ss.Init.2 ms.Init.2 = speciesMismatch ss ms := by
  unfold speciesMismatch FESlidingSurface3.enabled
  rw [(surfaceInit_spec ss).2.1, (surfaceInit_spec ss).2.2.1, (surfaceInit_spec ss).2.2.2,
    (surfaceInit_spec ms).2.1, (surfaceInit_spec ms).2.2.1, (surfaceInit_spec ms).2.2.2]

/-- The species test in the words of the claim. -/
theorem speciesMismatch_iff (ss ms : FESlidingSurface3) :
    speciesMismatch ss ms = true ↔
      (ss.enabled = true ∧ ms.enabled = true ∧ ss.m_nsol ≠ ms.m_nsol) := by
  unfold speciesMismatch
  simp [and_assoc]

/-- C8: Init returns false whenever the master or the slave surface has no
elements, and whenever the two surfaces are poro/solute-enabled with
different species counts; it returns true only if neither condition holds
(and then it does return true). -/
theorem Init_returns (ci : FESlidingInterface3)
    (ProjectSurface : FESlidingSurface3 → FESlidingSurface3 → Bool → FESlidingSurface3) :
    ((ci.m_ms.m_el = [] ∨ ci.m_ss.m_el = []) → (ci.Init ProjectSurface).1 = false) ∧
    ((ci.m_ss.enabled = true ∧ ci.m_ms.enabled = true ∧ ci.m_ss.m_nsol ≠ ci.m_ms.m_nsol) →
      (ci.Init ProjectSurface).1 = false) ∧
    ((ci.Init ProjectSurface).1 = true ↔
      (ci.m_ms.m_el ≠ [] ∧ ci.m_ss.m_el ≠ [] ∧
        ¬ (ci.m_ss.enabled = true ∧ ci.m_ms.enabled = true ∧
            ci.m_ss.m_nsol ≠ ci.m_ms.m_nsol))) := by
  have key : (ci.Init ProjectSurface).1 = true ↔
      (ci.m_ms.m_el ≠ [] ∧ ci.m_ss.m_el ≠ [] ∧
        ¬ (ci.m_ss.enabled = true ∧ ci.m_ms.enabled = true ∧
            ci.m_ss.m_nsol ≠ ci.m_ms.m_nsol)) := by
    rw [← speciesMismatch_iff, ← (surfaceInit_spec ci.m_ms).1, ← (surfaceInit_spec ci.m_ss).1,
      ← speciesMismatch_init]
    unfold FESlidingInterface3.Init
    cases hs : ci.m_ss.Init.1 <;> cases hm : ci.m_ms.Init.1 <;>
      cases hx : speciesMismatch ci.m_ss.Init.2 ci.m_ms.Init.2 <;> simp [hs, hm, hx]
  refine ⟨?_, ?_, key⟩
  · intro h
    rw [Bool.eq_false_iff]
    intro ht
    have := key.mp ht
    tauto
  · intro h
    rw [Bool.eq_false_iff]
    intro ht
    exact (key.mp ht).2.2 h

/-! ### Checkpointing -/

/-- Reading back the items of a vector that were written in sequence. -/
theorem getItems_flatMap {α : Type} (put : α → List Cell)
    (get : List Cell → Option (α × List Cell))
    (h : ∀ x r, get (put x ++ r) = some (x, r)) (xs : List α) (r : List Cell) :
    getItems get xs.length (xs.flatMap put ++ r) = some (xs, r) := by
  induction xs with
  | nil => rfl
  | cons x xs ih =>
    simp only [List.flatMap_cons, List.length_cons, List.append_assoc, getItems, h, ih]

/-- Reading back a vector: size, then items. -/
theorem getVector_putVector {α : Type} (put : α → List Cell)
    (get : List Cell → Option (α × List Cell))
    (h : ∀ x r, get (put x ++ r) = some (x, r)) (xs : List α) (r : List Cell) :
    getVector get (putVector put xs ++ r) = some (xs, r) := by
  unfold putVector
  simp only [List.cons_append, getVector]
  rw [if_neg (by simp)]
  exact getItems_flatMap put get h xs r

/-- Reading back a double. -/
theorem getDbl_put (x : ℚ) (r : List Cell) : getDbl ([Cell.d x] ++ r) = some (x, r) := rfl

/-- Reading back a projection target. -/
theorem getPme_put (x : Option Nat) (r : List Cell) : getPme (putPme x ++ r) = some (x, r) := by
  cases x with
  | none => rfl
  | some k =>
    simp only [putPme, List.cons_append, List.nil_append, getPme]
    rw [if_neg (by simp)]
    rfl

/-- Reading back a `vec2d`. -/
theorem getVec2_put (x : vec2d) (r : List Cell) : getVec2 (putVec2 x ++ r) = some (x, r) := rfl

/-- Reading back a `vec3d`. -/
theorem getVec3_put (x : vec3d) (r : List Cell) : getVec3 (putVec3 x ++ r) = some (x, r) := rfl

/-- Reading back three vectors of doubles. -/
theorem getDbl3_put (a b c : List ℚ) (r : List Cell) :
    getDbl3 (putVector (fun v => [Cell.d v]) a ++ (putVector (fun v => [Cell.d v]) b ++
      (putVector (fun v => [Cell.d v]) c ++ r))) = some ((a, b, c), r) := by
  unfold getDbl3
  rw [getVector_putVector _ _ getDbl_put]
  dsimp only [Option.bind]
  rw [getVector_putVector _ _ getDbl_put]
  dsimp only [Option.bind]
  rw [getVector_putVector _ _ getDbl_put]

/-- Restoring a surface from what another surface saved stores the saved
fields and consumes exactly what was written. -/
theorem load_save (s t : FESlidingSurface3) (r : List Cell) :
    t.load (s.save ++ r) = some ({ t with
      m_bporo := s.m_bporo, m_bsolu := s.m_bsolu, m_gap := s.m_gap, m_pg := s.m_pg,
      m_cg := s.m_cg, m_Lmd := s.m_Lmd, m_Lmp := s.m_Lmp, m_Lmc := s.m_Lmc,
      m_pme := s.m_pme, m_rs := s.m_rs, m_epsn := s.m_epsn, m_epsp := s.m_epsp,
      m_epsc := s.m_epsc, m_nn := s.m_nn }, r) := by
  unfold FESlidingSurface3.load FESlidingSurface3.save FESlidingSurface3.loadFlags
    FESlidingSurface3.loadGaps FESlidingSurface3.loadMultipliers
    FESlidingSurface3.loadProjection FESlidingSurface3.loadPenalties
    FESlidingSurface3.loadNormals
  simp only [List.append_assoc, List.cons_append, List.nil_append]
  simp only [Option.bind, getBool, getDbl3_put]
  rw [getVector_putVector _ _ getPme_put]
  dsimp only
  rw [getVector_putVector _ _ getVec2_put]
  dsimp only
  rw [getDbl3_put]
  dsimp only
  rw [getVector_putVector _ _ getVec3_put]

/-- Saving a surface appends its record to the archive. -/
theorem surface_Serialize_save (s : FESlidingSurface3) (pre : List Cell) :
    s.Serialize { saving := true, data := pre }
      = some (s, { saving := true, data := pre ++ s.save }) := rfl

/-- Restoring a surface from an archive that starts with a saved record. -/
theorem surface_Serialize_load (s t : FESlidingSurface3) (r : List Cell) :
    t.Serialize { saving := false, data := s.save ++ r } = some ({ t with
      m_bporo := s.m_bporo, m_bsolu := s.m_bsolu, m_gap := s.m_gap, m_pg := s.m_pg,
      m_cg := s.m_cg, m_Lmd := s.m_Lmd, m_Lmp := s.m_Lmp, m_Lmc := s.m_Lmc,
      m_pme := s.m_pme, m_rs := s.m_rs, m_epsn := s.m_epsn, m_epsp := s.m_epsp,
      m_epsc := s.m_epsc, m_nn := s.m_nn }, { saving := false, data := r }) := by
  unfold FESlidingSurface3.Serialize
  simp only [Bool.false_eq_true, if_false, load_save]

/-- C9: for every interface state, Serialize in save mode followed by
Serialize in restore mode into another interface (in particular a freshly
constructed one) succeeds, consumes the whole archive, and reproduces
identical per-point multipliers, gaps and projection state on both surfaces. -/
theorem Serialize_roundtrip (ci ci0 : FESlidingInterface3) :
    ∃ ar ci1,
      ci.Serialize { saving := true, data := [] } = some (ci, ar) ∧
      ci0.Serialize { saving := false, data := ar.data }
        = some (ci1, { saving := false, data := [] }) ∧
      samePointState ci1.m_ss ci.m_ss ∧ samePointState ci1.m_ms ci.m_ms ∧
      (FESlidingInterface3.fresh.Serialize { saving := false, data := ar.data }).isSome
        = true := by
  have hload : ∀ t : FESlidingInterface3,
      t.Serialize { saving := false, data := ci.m_ms.save ++ (ci.m_ss.save ++ []) }
        = some ({ t with
            m_ms := { t.m_ms with
              m_bporo := ci.m_ms.m_bporo, m_bsolu := ci.m_ms.m_bsolu, m_gap := ci.m_ms.m_gap,
              m_pg := ci.m_ms.m_pg, m_cg := ci.m_ms.m_cg, m_Lmd := ci.m_ms.m_Lmd,
              m_Lmp := ci.m_ms.m_Lmp, m_Lmc := ci.m_ms.m_Lmc, m_pme := ci.m_ms.m_pme,
              m_rs := ci.m_ms.m_rs, m_epsn := ci.m_ms.m_epsn, m_epsp := ci.m_ms.m_epsp,
              m_epsc := ci.m_ms.m_epsc, m_nn := ci.m_ms.m_nn }
            m_ss := { t.m_ss with
              m_bporo := ci.m_ss.m_bporo, m_bsolu := ci.m_ss.m_bsolu, m_gap := ci.m_ss.m_gap,
              m_pg := ci.m_ss.m_pg, m_cg := ci.m_ss.m_cg, m_Lmd := ci.m_ss.m_Lmd,
              m_Lmp := ci.m_ss.m_Lmp, m_Lmc := ci.m_ss.m_Lmc, m_pme := ci.m_ss.m_pme,
              m_rs := ci.m_ss.m_rs, m_epsn := ci.m_ss.m_epsn, m_epsp := ci.m_ss.m_epsp,
              m_epsc := ci.m_ss.m_epsc, m_nn := ci.m_ss.m_nn } },
          { saving := false, data := [] }) := by
    intro t
    unfold FESlidingInterface3.Serialize
    rw [surface_Serialize_load]
    dsimp only
    rw [surface_Serialize_load]
  refine ⟨{ saving := true, data := ci.m_ms.save ++ (ci.m_ss.save ++ []) }, _, ?_, hload ci0, ?_, ?_, ?_⟩
  · unfold FESlidingInterface3.Serialize
    rw [surface_Serialize_save]
    dsimp only
    rw [surface_Serialize_save]
    simp
  · exact ⟨rfl, rfl, rfl, rfl, rfl, rfl, rfl, rfl⟩
  · exact ⟨rfl, rfl, rfl, rfl, rfl, rfl, rfl, rfl⟩
  · rw [hload]
    rfl

/-! ### Symmetrisation of the element stiffness -/

/-- The inner loop: after `k` passes the entries `(i, j)` and `(j, i)` with
`i < j ≤ i + k` hold the average of the two entries it started from; no other
entry is written. -/
theorem symmInner_spec (i : Nat) (ke : matrix) (k a b : Nat) :
    symmInner i ke k a b =
      if (a = i ∧ i < b ∧ b ≤ i + k) ∨ (b = i ∧ i < a ∧ a ≤ i + k)
      then 0.5 * (ke a b + ke b a) else ke a b := by
  induction k generalizing a b with
  | zero =>
    have h : ¬ ((a = i ∧ i < b ∧ b ≤ i + 0) ∨ (b = i ∧ i < a ∧ a ≤ i + 0)) := by omega
    rw [if_neg h]
    rfl
  | succ k ih =>
    have hij : symmInner i ke k i (i + 1 + k) = ke i (i + 1 + k) := by
      rw [ih, if_neg (by omega)]
    have hji : symmInner i ke k (i + 1 + k) i = ke (i + 1 + k) i := by
      rw [ih, if_neg (by omega)]
    simp only [symmInner, matrix.set, hij, hji]
    by_cases h1 : a = i ∧ b = i + 1 + k
    · obtain ⟨rfl, rfl⟩ := h1
      rw [if_pos ⟨rfl, rfl⟩, if_pos (by omega)]
    · rw [if_neg h1]
      by_cases h2 : a = i + 1 + k ∧ b = i
      · obtain ⟨rfl, rfl⟩ := h2
        rw [if_pos ⟨rfl, rfl⟩, if_pos (by omega), add_comm]
      · rw [if_neg h2, ih]
        by_cases h3 : (a = i ∧ i < b ∧ b ≤ i + k) ∨ (b = i ∧ i < a ∧ a ≤ i + k)
        · rw [if_pos h3, if_pos (by omega)]
        · rw [if_neg h3, if_neg (by omega)]

/-- The outer loop: after `m` passes every off-diagonal pair of the block
with a row or column index below `m` holds the average of the two entries of
the block it started from; no other entry is written. -/
theorem symmOuter_spec (n : Nat) (ke : matrix) (m a b : Nat)
    (hm : m ≤ n) (ha : a < n) (hb : b < n) :
    symmOuter n ke m a b =
      if a ≠ b ∧ (a < m ∨ b < m) then 0.5 * (ke a b + ke b a) else ke a b := by
  induction m generalizing a b with
  | zero =>
    rw [if_neg (by omega)]
    rfl
  | succ m ih =>
    simp only [symmOuter]
    rw [symmInner_spec]
    by_cases h1 : (a = m ∧ m < b ∧ b ≤ m + (n - (m + 1))) ∨
        (b = m ∧ m < a ∧ a ≤ m + (n - (m + 1)))
    · rw [if_pos h1, ih a b (by omega) ha hb, ih b a (by omega) hb ha,
        if_neg (by omega), if_neg (by omega), if_pos (by omega)]
    · rw [if_neg h1, ih a b (by omega) ha hb]
      by_cases h2 : a ≠ b ∧ (a < m ∨ b < m)
      · rw [if_pos h2, if_pos (by omega)]
      · rw [if_neg h2, if_neg (by omega)]

/-- The closing block on a block of `n` rows: with the flag set, every
off-diagonal entry is replaced by the average with its transpose and the
diagonal is kept; with the flag clear nothing changes. -/
theorem enforceSymmetry_spec (n : Nat) (ke : matrix) (bsymm : Bool) (a b : Nat)
    (ha : a < n) (hb : b < n) :
    enforceSymmetry n bsymm ke a b =
      if bsymm = true ∧ a ≠ b then 0.5 * (ke a b + ke b a) else ke a b := by
  unfold enforceSymmetry
  cases bsymm with
  | false => simp
  | true =>
    simp only [if_true, true_and]
    rw [symmOuter_spec n ke n a b le_rfl ha hb]
    by_cases h : a ≠ b
    · rw [if_pos ⟨h, Or.inl ha⟩, if_pos h]
    · rw [if_neg (fun hh => h hh.1), if_neg h]

/-- C6: with the symmetric-tangent flag set, the block returned by
ElementMultiphasicStiffness and ElementMultiphasicStiffnessSS equals
(K + K^T)/2, K being the block computed before symmetrisation: for i ≠ j the
entries ke[i][j] and ke[j][i] are both 0.5*(K[i][j] + K[j][i]), which is
(K[i][j] + K[j][i])/2, the diagonal entries are unchanged, and the result is
exactly symmetric; with the flag clear the block K is returned unchanged. -/
theorem ElementMultiphasicStiffness_symmetrized (nsol neln : Nat) (K : matrix) :
    (ElementMultiphasicStiffnessSS nsol neln K true
      = ElementMultiphasicStiffness nsol neln K true) ∧
    (ElementMultiphasicStiffnessSS nsol neln K false
      = ElementMultiphasicStiffness nsol neln K false) ∧
    (ElementMultiphasicStiffness nsol neln K true).1 = true ∧
    (∀ i j, i < 2 * (4 + nsol) * neln → j < 2 * (4 + nsol) * neln → i ≠ j →
      (ElementMultiphasicStiffness nsol neln K true).2 i j = 0.5 * (K i j + K j i) ∧
      (ElementMultiphasicStiffness nsol neln K true).2 j i = 0.5 * (K i j + K j i) ∧
      (ElementMultiphasicStiffness nsol neln K true).2 i j = (K i j + K j i) / 2) ∧
    (∀ i, i < 2 * (4 + nsol) * neln →
      (ElementMultiphasicStiffness nsol neln K true).2 i i = K i i) ∧
    (∀ i j, i < 2 * (4 + nsol) * neln → j < 2 * (4 + nsol) * neln →
      (ElementMultiphasicStiffness nsol neln K true).2 i j
        = (ElementMultiphasicStiffness nsol neln K true).2 j i) ∧
    ElementMultiphasicStiffness nsol neln K false = (true, K) := by
  refine ⟨rfl, rfl, rfl, ?_, ?_, ?_, rfl⟩
  · intro i j hi hj hij
    simp only [ElementMultiphasicStiffness]
    rw [enforceSymmetry_spec _ _ _ i j hi hj, enforceSymmetry_spec _ _ _ j i hj hi,
      if_pos ⟨rfl, hij⟩, if_pos ⟨rfl, Ne.symm hij⟩]
    refine ⟨rfl, by rw [add_comm], ?_⟩
    norm_num
    ring
  · intro i hi
    simp only [ElementMultiphasicStiffness]
    rw [enforceSymmetry_spec _ _ _ i i hi hi, if_neg (by simp)]
  · intro i j hi hj
    simp only [ElementMultiphasicStiffness]
    rw [enforceSymmetry_spec _ _ _ i j hi hj, enforceSymmetry_spec _ _ _ j i hj hi]
    by_cases h : i = j
    · subst h
      rfl
    · rw [if_pos ⟨rfl, h⟩, if_pos ⟨rfl, Ne.symm h⟩, add_comm]

/-- C6 on a sample: the 2-by-2 corner of a block with entries 4 and 2 off the
diagonal (no solutes, one node). -/
theorem ElementMultiphasicStiffness_sample :
    (ElementMultiphasicStiffness 0 1 sampleBlock true).2 0 1 = 3 ∧
    (ElementMultiphasicStiffness 0 1 sampleBlock true).2 1 0 = 3 ∧
    (ElementMultiphasicStiffness 0 1 sampleBlock true).2 1 1 = 7 := by
  have h := (ElementMultiphasicStiffness_symmetrized 0 1 sampleBlock).2.2.2
  refine ⟨?_, ?_, ?_⟩
  · rw [(h.1 0 1 (by decide) (by decide) (by decide)).1]
    norm_num [sampleBlock]
  · rw [(h.1 0 1 (by decide) (by decide) (by decide)).2.1]
    norm_num [sampleBlock]
  · rw [h.2.1 1 (by decide)]
    norm_num [sampleBlock]

/-! ### `Update`: negative Jacobians become a restart request -/

/-- The loop hands every element to `UpdateElementStress`, in order, whether
earlier elements failed or not. -/
theorem updateLoop_dom {σ : Type} (ues : Nat → ℚ → σ → σ × Option NegativeJacobian)
    (bout : Bool) (dt : ℚ) (st : UpdateLoop σ) (k : Nat) :
    (updateLoop ues bout dt st k).dom = visited ues dt st.dom k := by
  induction k with
  | zero => rfl
  | succ k ih =>
    simp only [updateLoop, visited]
    rw [ih]
    cases h : ues k dt (visited ues dt st.dom k) with
    | mk d o => cases o <;> rfl

/-- The flag `berr` is set after `k` passes exactly when it was set before or
one of the first `k` elements raised `NegativeJacobian`. -/
theorem updateLoop_berr {σ : Type} (ues : Nat → ℚ → σ → σ × Option NegativeJacobian)
    (bout : Bool) (dt : ℚ) (st : UpdateLoop σ) (k : Nat) :
    (updateLoop ues bout dt st k).berr = true ↔
      (st.berr = true ∨ ∃ i, i < k ∧ ∃ e, (ues i dt (visited ues dt st.dom i)).2 = some e) := by
  induction k with
  | zero => simp [updateLoop]
  | succ k ih =>
    have hd := updateLoop_dom ues bout dt st k
    simp only [updateLoop]
    rw [hd]
    cases h : ues k dt (visited ues dt st.dom k) with
    | mk d o =>
      cases o with
      | none =>
        simp only [ih]
        constructor
        · rintro (h1 | ⟨i, hi, e, he⟩)
          · exact Or.inl h1
          · exact Or.inr ⟨i, by omega, e, he⟩
        · rintro (h1 | ⟨i, hi, e, he⟩)
          · exact Or.inl h1
          · rcases Nat.lt_succ_iff_lt_or_eq.mp hi with hlt | heq
            · exact Or.inr ⟨i, hlt, e, he⟩
            · subst heq
              rw [h] at he
              cases he
      | some e =>
        simp only [true_iff]
        exact Or.inr ⟨k, by omega, e, by rw [h]⟩

/-- C7: Update throws DoRunningRestart if and only if UpdateElementStress
raised NegativeJacobian for at least one element, and otherwise throws
nothing; a NegativeJacobian never propagates out of Update; and every
element of the domain is handed to UpdateElementStress, in order, also after
one of them has failed. -/
theorem Update_restart_iff {σ : Type} (ues : Nat → ℚ → σ → σ × Option NegativeJacobian)
    (m_boutput : Bool) (NE : Nat) (dt : ℚ) (d : σ) :
    ((Update ues m_boutput NE dt d).thrown = some Thrown.DoRunningRestart ↔
      ∃ i, i < NE ∧ ∃ e, (ues i dt (visited ues dt d i)).2 = some e) ∧
    ((Update ues m_boutput NE dt d).thrown = none ↔
      ∀ i, i < NE → (ues i dt (visited ues dt d i)).2 = none) ∧
    (∀ e, (Update ues m_boutput NE dt d).thrown ≠ some (Thrown.NegativeJacobian e)) ∧
    (Update ues m_boutput NE dt d).dom = visited ues dt d NE := by
  have hb := updateLoop_berr ues m_boutput dt { dom := d, berr := false, log := [] } NE
  have hd := updateLoop_dom ues m_boutput dt { dom := d, berr := false, log := [] } NE
  simp only [Bool.false_eq_true, false_or] at hb
  unfold Update
  by_cases h : (updateLoop ues m_boutput dt { dom := d, berr := false, log := [] } NE).berr = true
  · rw [if_pos h]
    refine ⟨⟨fun _ => hb.mp h, fun _ => rfl⟩, ⟨fun hn => ?_, fun hall => ?_⟩, ?_, hd⟩
    · cases hn
    · obtain ⟨i, hi, e, he⟩ := hb.mp h
      rw [hall i hi] at he
      cases he
    · intro e he
      cases he
  · rw [if_neg h]
    refine ⟨⟨fun hn => ?_, fun hex => absurd (hb.mpr hex) h⟩, ⟨fun _ => ?_, fun _ => rfl⟩,
      ?_, hd⟩
    · cases hn
    · intro i hi
      cases ho : (ues i dt (visited ues dt d i)).2 with
      | none => rfl
      | some e => exact absurd (hb.mpr ⟨i, hi, e, ho⟩) h
    · intro e he
      cases he

/-- C7 on a sample: three elements, the second one with a negative Jacobian;
Update asks for a restart and all three elements have been handled. -/
theorem Update_sample :
    (Update sampleStress true 3 1 []).thrown = some Thrown.DoRunningRestart ∧
    (Update sampleStress true 3 1 []).dom = [0, 1, 2] ∧
    (Update sampleStress true 3 1 []).log = [LogMsg.print ⟨1, 0, -1⟩] ∧
    (Update sampleStress true 1 1 []).thrown = none := by
  refine ⟨?_, ?_, ?_, ?_⟩ <;>
    simp [Update, updateLoop, sampleStress]

/-! ### Symbolic integration -/

/-- A mapped result that is present stays the same when the underlying result does. -/
theorem map_some_step {α β : Type} (f : α → β) (o o2 : Option α) (F : β)
    (ih : ∀ a, o = some a → o2 = some a) (h : o.map f = some F) : o2.map f = some F := by
  cases o with
  | none => cases h
  | some a => rw [ih a rfl]; exact h

/-- The same for a result combined from two underlying results. -/
theorem bind_map_some_step {α β : Type} (f : α → α → β) (o1 o2 p1 p2 : Option α) (F : β)
    (ih1 : ∀ a, o1 = some a → p1 = some a) (ih2 : ∀ a, o2 = some a → p2 = some a)
    (h : o1.bind (fun a => o2.map (fun b => f a b)) = some F) :
    p1.bind (fun a => p2.map (fun b => f a b)) = some F := by
  cases o1 with
  | none => cases h
  | some a =>
    cases o2 with
    | none => cases h
    | some b => rw [ih1 a rfl, ih2 b rfl]; exact h

/-- A result of `MIntegral` found within some recursion depth is found within the
next depth as well. -/
theorem MIntegral_fuel_succ (M : MMath) (x : MVariable) (fuel : Nat) :
    ∀ (i F : MITEM), MIntegral M x fuel i = some F → MIntegral M x (fuel + 1) i = some F := by
  induction fuel with
  | zero => intro i F h; simp [MIntegral] at h
  | succ n ih =>
    intro i F h
    rw [MIntegral] at h ⊢
    generalize M.MEvaluate i = e at h ⊢
    dsimp only at h ⊢
    split
    · rw [if_pos (by assumption)] at h; exact h
    · rw [if_neg (by assumption)] at h
      cases e <;> dsimp only at h ⊢ <;> try exact h
      case MNEG => exact map_some_step _ _ _ _ (ih _) h
      case MADD => exact bind_map_some_step _ _ _ _ _ _ (ih _) (ih _) h
      case MSUB => exact bind_map_some_step _ _ _ _ _ _ (ih _) (ih _) h
      case MMUL =>
        split
        · rw [if_pos (by assumption)] at h
          exact map_some_step _ _ _ _ (ih _) h
        · rw [if_neg (by assumption)] at h
          split
          · rw [if_pos (by assumption)] at h
            exact map_some_step _ _ _ _ (ih _) h
          · rw [if_neg (by assumption)] at h
            exact ih _ _ h
      case MDIV =>
        split
        · rw [if_pos (by assumption)] at h
          exact map_some_step _ _ _ _ (ih _) h
        · rw [if_neg (by assumption)] at h
          exact h
      case MPOW =>
        split
        · rw [if_pos (by assumption)] at h; exact h
        · rw [if_neg (by assumption)] at h
          split
          · rw [if_pos (by assumption)] at h
            exact ih _ _ h
          · rw [if_neg (by assumption)] at h
            exact h

/-- The result of `MIntegral` does not depend on the depth bound, once the bound
is large enough for a result. -/
theorem MIntegral_fuel_mono (M : MMath) (x : MVariable) (fuel k : Nat) (i F : MITEM)
    (h : MIntegral M x fuel i = some F) : MIntegral M x (fuel + k) i = some F := by
  induction k with
  | zero => exact h
  | succ k ih => exact MIntegral_fuel_succ M x (fuel + k) i F ih
/-- C10: the definite integral MIntegral(i, x, a, b) is
MReplace(F, x, b) - MReplace(F, x, a) with F = MIntegral(MEvaluate(i), x) the
indefinite integral of the simplified integrand (it returns exactly when the
indefinite integral returns, and then with every larger depth bound);
swapping the bounds a and b yields the difference with its two operands
exchanged. -/
theorem MIntegralDefinite_eq (M : MMath) (x : MVariable) (fuel : Nat) (i a b : MITEM) :
    MIntegralDefinite M x fuel i a b =
      (MIntegral M x fuel (M.MEvaluate i)).map
        (fun F => M.sub (M.MReplace F x b) (M.MReplace F x a)) ∧
    MIntegralDefinite M x fuel i b a =
      (MIntegral M x fuel (M.MEvaluate i)).map
        (fun F => M.sub (M.MReplace F x a) (M.MReplace F x b)) ∧
    (∀ F, MIntegral M x fuel (M.MEvaluate i) = some F → ∀ k,
      MIntegralDefinite M x (fuel + k) i a b
        = some (M.sub (M.MReplace F x b) (M.MReplace F x a)) ∧
      MIntegralDefinite M x (fuel + k) i b a
        = some (M.sub (M.MReplace F x a) (M.MReplace F x b))) := by
  refine ⟨?_, ?_, ?_⟩
  · unfold MIntegralDefinite
    dsimp only
    generalize MIntegral M x fuel (M.MEvaluate i) = o
    cases o <;> rfl
  · unfold MIntegralDefinite
    dsimp only
    generalize MIntegral M x fuel (M.MEvaluate i) = o
    cases o <;> rfl
  · intro F hF k
    have hk := MIntegral_fuel_mono M x fuel k (M.MEvaluate i) F hF
    unfold MIntegralDefinite
    dsimp only
    rw [hk]
    exact ⟨rfl, rfl⟩

/-- C10 on a sample: the integral of x from 0 to 1 in the sample algebra is
(1/2) * 1^2 - (1/2) * 0^2, and the exchanged difference with the bounds swapped. -/
theorem MIntegralDefinite_eq_witness :
    MIntegral freeMath ⟨"x"⟩ 1 (MITEM.MVAR ⟨"x"⟩)
      = some (MITEM.MMUL (MITEM.MFRAC 1 2) (MITEM.MPOW (MITEM.MVAR ⟨"x"⟩) (MITEM.MCONST 2))) ∧
    MIntegralDefinite freeMath ⟨"x"⟩ (1 + 2) (MITEM.MVAR ⟨"x"⟩) (MITEM.MCONST 0) (MITEM.MCONST 1)
      = some (MITEM.MSUB
          (MITEM.MMUL (MITEM.MFRAC 1 2) (MITEM.MPOW (MITEM.MCONST 1) (MITEM.MCONST 2)))
          (MITEM.MMUL (MITEM.MFRAC 1 2) (MITEM.MPOW (MITEM.MCONST 0) (MITEM.MCONST 2)))) ∧
    MIntegralDefinite freeMath ⟨"x"⟩ (1 + 2) (MITEM.MVAR ⟨"x"⟩) (MITEM.MCONST 1) (MITEM.MCONST 0)
      = some (MITEM.MSUB
          (MITEM.MMUL (MITEM.MFRAC 1 2) (MITEM.MPOW (MITEM.MCONST 0) (MITEM.MCONST 2)))
          (MITEM.MMUL (MITEM.MFRAC 1 2) (MITEM.MPOW (MITEM.MCONST 1) (MITEM.MCONST 2)))) :=
  ⟨by decide,
    (MIntegralDefinite_eq freeMath ⟨"x"⟩ 1 (MITEM.MVAR ⟨"x"⟩) (MITEM.MCONST 0)
      (MITEM.MCONST 1)).2.2
      (MITEM.MMUL (MITEM.MFRAC 1 2) (MITEM.MPOW (MITEM.MVAR ⟨"x"⟩) (MITEM.MCONST 2)))
      (by decide) 2⟩

/-- C11: for every expression i whose simplified form e = MEvaluate(i) does
not depend on x, the indefinite integral MIntegral(i, x) is exactly the
product e * x, with no integration constant, whatever the node type of e. -/
theorem MIntegral_independent (M : MMath) (x : MVariable) (fuel : Nat) (i : MITEM)
    (h : M.is_dependent (M.MEvaluate i) x = false) :
    MIntegral M x (fuel + 1) i = some (M.mul (M.MEvaluate i) (MITEM.MVAR x)) := by
  rw [MIntegral]
  dsimp only
  rw [if_pos h]

/-- C12: power rule of MIntegral.  When the simplified integrand is the
variable x itself the result is (1/2) * x^2; when it is x^c with c a constant
and c ≠ -1 the result is x^(c+1) / (c+1), and the divisor c+1 is not zero; when
it is x^(-1) the result is Log(Abs(x)). -/
theorem MIntegral_power_rule (M : MMath) (x : MVariable) (fuel : Nat) (i : MITEM)
    (hd : M.is_dependent (M.MEvaluate i) x = true) :
    (M.MEvaluate i = MITEM.MVAR x →
      MIntegral M x (fuel + 1) i =
        some (M.mul (M.Fraction 1 2) (M.pow (MITEM.MVAR x) (M.ofDouble 2)))) ∧
    (∀ r, M.MEvaluate i = MITEM.MPOW (MITEM.MVAR x) r → M.isConst r = true →
      M.value r ≠ -1 →
      MIntegral M x (fuel + 1) i =
        some (M.div (M.pow (MITEM.MVAR x) (M.ofDouble (M.value r + 1)))
          (M.ofDouble (M.value r + 1))) ∧
      M.value r + 1 ≠ 0) ∧
    (∀ r, M.MEvaluate i = MITEM.MPOW (MITEM.MVAR x) r → M.isConst r = true →
      M.value r = -1 →
      MIntegral M x (fuel + 1) i = some (M.Log (M.Abs (MITEM.MVAR x)))) := by
  have hd' : ¬ (M.is_dependent (M.MEvaluate i) x = false) := by simp [hd]
  refine ⟨?_, ?_, ?_⟩
  · intro he
    rw [MIntegral]
    dsimp only
    rw [if_neg hd', he]
    simp [MITEM.isVarRef]
  · intro r he hc hv
    constructor
    · rw [MIntegral]
      dsimp only
      rw [if_neg hd', he]
      simp [MITEM.isVarRef, is_var, hc, hv]
    · intro h0
      apply hv
      linarith
  · intro r he hc hv
    rw [MIntegral]
    dsimp only
    rw [if_neg hd', he]
    simp [MITEM.isVarRef, is_var, hc, hv]

/-- C11 witness: the integral of the constant 3 in the sample algebra is 3 * x. -/
theorem MIntegral_independent_witness :
    MIntegral freeMath ⟨"x"⟩ (0 + 1) (MITEM.MCONST 3)
      = some (freeMath.mul (freeMath.MEvaluate (MITEM.MCONST 3)) (MITEM.MVAR ⟨"x"⟩)) :=
  MIntegral_independent freeMath ⟨"x"⟩ 0 (MITEM.MCONST 3) rfl

/-- C12 witness: the integrand x in the sample algebra. -/
theorem MIntegral_power_rule_witness :
    MIntegral freeMath ⟨"x"⟩ (0 + 1) (MITEM.MVAR ⟨"x"⟩) =
      some (freeMath.mul (freeMath.Fraction 1 2)
        (freeMath.pow (MITEM.MVAR ⟨"x"⟩) (freeMath.ofDouble 2))) ∧
    (MIntegral freeMath ⟨"x"⟩ (0 + 1)
        (MITEM.MPOW (MITEM.MVAR ⟨"x"⟩) (MITEM.MCONST 3)) =
      some (freeMath.div
        (freeMath.pow (MITEM.MVAR ⟨"x"⟩) (freeMath.ofDouble
          (freeMath.value (MITEM.MCONST 3) + 1)))
        (freeMath.ofDouble (freeMath.value (MITEM.MCONST 3) + 1))) ∧
      freeMath.value (MITEM.MCONST 3) + 1 ≠ 0) :=
  ⟨(MIntegral_power_rule freeMath ⟨"x"⟩ 0 (MITEM.MVAR ⟨"x"⟩) (by decide)).1 rfl,
   (MIntegral_power_rule freeMath ⟨"x"⟩ 0 (MITEM.MPOW (MITEM.MVAR ⟨"x"⟩) (MITEM.MCONST 3))
      (by decide)).2.1 (MITEM.MCONST 3) rfl rfl (by norm_num [freeMath])⟩

/-- C13: MIntegral is linear on x-dependent integrands.  For a simplified
integrand -a, a+b or a-b the result is -I(a), I(a)+I(b) or I(a)-I(b) with
I = MIntegral(., x); for a product l*r in which exactly one factor is
independent of x that factor is pulled out (l * I(r), respectively r * I(l));
for a quotient l/r with r independent of x the result is I(l) / r.  The
result is returned whenever the integrals of the parts are. -/
theorem MIntegral_linear (M : MMath) (x : MVariable) (fuel : Nat) (i : MITEM)
    (hd : M.is_dependent (M.MEvaluate i) x = true) :
    (∀ a, M.MEvaluate i = MITEM.MNEG a →
      MIntegral M x (fuel + 1) i = (MIntegral M x fuel a).map M.neg) ∧
    (∀ a b, M.MEvaluate i = MITEM.MADD a b →
      MIntegral M x (fuel + 1) i =
        (MIntegral M x fuel a).bind (fun Ia => (MIntegral M x fuel b).map (fun Ib => M.add Ia Ib))) ∧
    (∀ a b, M.MEvaluate i = MITEM.MSUB a b →
      MIntegral M x (fuel + 1) i =
        (MIntegral M x fuel a).bind (fun Ia => (MIntegral M x fuel b).map (fun Ib => M.sub Ia Ib))) ∧
    (∀ l r, M.MEvaluate i = MITEM.MMUL l r → M.is_dependent l x = false →
      M.is_dependent r x = true →
      MIntegral M x (fuel + 1) i = (MIntegral M x fuel r).map (fun Ir => M.mul l Ir)) ∧
    (∀ l r, M.MEvaluate i = MITEM.MMUL l r → M.is_dependent l x = true →
      M.is_dependent r x = false →
      MIntegral M x (fuel + 1) i = (MIntegral M x fuel l).map (fun Il => M.mul r Il)) ∧
    (∀ l r, M.MEvaluate i = MITEM.MDIV l r → M.is_dependent r x = false →
      MIntegral M x (fuel + 1) i = (MIntegral M x fuel l).map (fun Il => M.div Il r)) := by
  have hd' : ¬ (M.is_dependent (M.MEvaluate i) x = false) := by simp [hd]
  refine ⟨?_, ?_, ?_, ?_, ?_, ?_⟩
  · intro a he
    rw [MIntegral]
    dsimp only
    rw [if_neg hd', he]
  · intro a b he
    rw [MIntegral]
    dsimp only
    rw [if_neg hd', he]
  · intro a b he
    rw [MIntegral]
    dsimp only
    rw [if_neg hd', he]
  · intro l r he hl _
    rw [MIntegral]
    dsimp only
    rw [if_neg hd', he]
    dsimp only
    rw [if_pos hl]
  · intro l r he hl hr
    rw [MIntegral]
    dsimp only
    rw [if_neg hd', he]
    dsimp only
    rw [if_neg (by simp [hl]), if_pos hr]
  · intro l r he hr
    rw [MIntegral]
    dsimp only
    rw [if_neg hd', he]
    dsimp only
    rw [if_pos hr]

/-- C13 witness: the integral of x + 3 in the sample algebra is
(1/2) * x^2 + 3 * x. -/
theorem MIntegral_linear_witness :
    MIntegral freeMath ⟨"x"⟩ (1 + 1) (MITEM.MADD (MITEM.MVAR ⟨"x"⟩) (MITEM.MCONST 3)) =
      (MIntegral freeMath ⟨"x"⟩ 1 (MITEM.MVAR ⟨"x"⟩)).bind (fun Ia =>
        (MIntegral freeMath ⟨"x"⟩ 1 (MITEM.MCONST 3)).map (fun Ib => freeMath.add Ia Ib)) ∧
    MIntegral freeMath ⟨"x"⟩ 2 (MITEM.MADD (MITEM.MVAR ⟨"x"⟩) (MITEM.MCONST 3)) =
      some (MITEM.MADD
        (MITEM.MMUL (MITEM.MFRAC 1 2) (MITEM.MPOW (MITEM.MVAR ⟨"x"⟩) (MITEM.MCONST 2)))
        (MITEM.MMUL (MITEM.MCONST 3) (MITEM.MVAR ⟨"x"⟩))) :=
  ⟨(MIntegral_linear freeMath ⟨"x"⟩ 1 (MITEM.MADD (MITEM.MVAR ⟨"x"⟩) (MITEM.MCONST 3))
      (by decide)).2.1 _ _ rfl, by decide⟩

/-! ### Third-order tensors -/

/-- The index map of the transpose permutes the 18 stored positions. -/
theorem transposeIndex_perm :
    ((List.range 18).map (fun k => 3 * (k % 6) + k / 6)).Perm (List.range 18) := by
  decide

/-- C15: transpose implements (G_KJi)^T = G_iJK on the packed storage: for
every tensor t, every i in 0..2 and every pair index p in 0..5 the result r
satisfies r.d[6*i + p] = t.d[3*p + i]; the 18 components of r are a
permutation of the 18 components of t (the index map is a bijection of the 18
positions); and t is left unchanged. -/
theorem transpose_spec (t : tens3dls) :
    (∀ i p, i < 3 → p < 6 → t.transpose.1.d (6 * i + p) = t.d (3 * p + i)) ∧
    (∀ k : Fin 18, t.transpose.1.d k.val = t.d (transposeIndex k).val) ∧
    Function.LeftInverse transposeIndexInv transposeIndex ∧
    Function.RightInverse transposeIndexInv transposeIndex ∧
    ((List.range 18).map t.transpose.1.d).Perm ((List.range 18).map t.d) ∧
    t.transpose.2 = t := by
  refine ⟨?_, ?_, ?_, ?_, ?_, rfl⟩
  · intro i p hi hp
    interval_cases i <;> interval_cases p <;> rfl
  · intro k
    fin_cases k <;> rfl
  · intro k
    fin_cases k <;> rfl
  · intro k
    fin_cases k <;> rfl
  · have h := List.Perm.map t.d transposeIndex_perm
    have e : (List.range 18).map t.transpose.1.d
        = ((List.range 18).map (fun k => 3 * (k % 6) + k / 6)).map t.d := by
      simp [List.range, List.range.loop, tens3dls.transpose]
    rw [e]
    exact h

/-- C15 on a sample: the tensor with components 1, ..., 18. -/
theorem transpose_sample :
    sampleTens.transpose.1.d 1 = 4 ∧ sampleTens.transpose.1.d 6 = 2 ∧
    sampleTens.transpose.1.d 17 = 18 := by
  have h := (transpose_spec sampleTens).1
  refine ⟨?_, ?_, ?_⟩
  · rw [h 0 1 (by decide) (by decide)]
    norm_num [sampleTens]
  · rw [h 1 0 (by decide) (by decide)]
    norm_num [sampleTens]
  · rw [h 2 5 (by decide) (by decide)]
    norm_num [sampleTens]

/-- C16: the product with a matrix on the right contracts the last index with
F (G_KJi * F_iI): for every tensor t, matrix F, pair index p in 0..5 and column
j in 0..2, (t*F).d[3*p + j] = t.d[3*p]*F(0,j) + t.d[3*p+1]*F(1,j) +
t.d[3*p+2]*F(2,j); in particular t * identity = t on the 18 components.  The
operator is a function of t and F and writes neither. -/
theorem mulMat_spec (t : tens3dls) (F : mat3d) :
    (∀ p j, p < 6 → j < 3 →
      (t.mulMat F).d (3 * p + j) =
        t.d (3 * p) * F.d 0 j + t.d (3 * p + 1) * F.d 1 j + t.d (3 * p + 2) * F.d 2 j) ∧
    (∀ k, k < 18 → (t.mulMat mat3d.identity).d k = t.d k) := by
  have h2 : ∀ (G : mat3d) p j, p < 6 → j < 3 →
      (t.mulMat G).d (3 * p + j) =
        t.d (3 * p) * G.d 0 j + t.d (3 * p + 1) * G.d 1 j + t.d (3 * p + 2) * G.d 2 j := by
    intro G p j hp hj
    interval_cases p <;> interval_cases j <;> rfl
  refine ⟨h2 F, ?_⟩
  intro k hk
  have hk' : k = 3 * (k / 3) + k % 3 := by omega
  have hj : k % 3 < 3 := by omega
  have hp : k / 3 < 6 := by omega
  rw [hk']
  generalize k / 3 = p at hp
  generalize k % 3 = j at hj
  rw [h2 mat3d.identity p j hp hj]
  interval_cases j <;> simp [mat3d.identity]

/-- C16 on a sample: the first component of the product of the sample tensor
with the identity. -/
theorem mulMat_sample :
    (sampleTens.mulMat mat3d.identity).d 4 = 5 := by
  rw [(mulMat_spec sampleTens mat3d.identity).2 4 (by decide)]
  norm_num [sampleTens]

/-! ### Micro-probe validation -/

/-- The search finds an element exactly when the domain has one with that ID,
and the element found carries the ID. -/
theorem FindElementFromID_spec {ρ : Type} (elems : List (FESolidElement ρ)) (nid : Int) :
    ((∃ el, FindElementFromID elems nid = some el) ↔ ∃ el ∈ elems, el.m_nID = nid) ∧
    (∀ el, FindElementFromID elems nid = some el → el ∈ elems ∧ el.m_nID = nid) := by
  induction elems with
  | nil => simp [FindElementFromID]
  | cons a l ih =>
    by_cases h : a.m_nID = nid
    · simp [FindElementFromID, h]
    · simp only [FindElementFromID, if_neg h, List.mem_cons]
      refine ⟨?_, ?_⟩
      · rw [ih.1]
        constructor
        · rintro ⟨el, hel, hid⟩
          exact ⟨el, Or.inr hel, hid⟩
        · rintro ⟨el, hel | hel, hid⟩
          · exact absurd (hel ▸ hid) h
          · exact ⟨el, hel, hid⟩
      · intro el hel
        exact ⟨Or.inr (ih.2 el hel).1, (ih.2 el hel).2⟩

/-- Initialising the material points changes neither which element a search
finds nor its number of integration points. -/
theorem FindElementFromID_initMicroPoints {ρ : Type} (CopyFrom : ρ → ρ → ρ) (Init : ρ → ρ)
    (rve : ρ) (elems : List (FESolidElement ρ)) (nid : Int) :
    FindElementFromID (initMicroPoints CopyFrom Init rve elems) nid =
      (FindElementFromID elems nid).map (fun el =>
        { el with m_State := el.m_State.map (initMicroPoint CopyFrom Init rve) }) := by
  induction elems with
  | nil => rfl
  | cons a l ih =>
    simp only [initMicroPoints, List.map_cons, FindElementFromID] at ih ⊢
    by_cases h : a.m_nID = nid
    · simp [h]
    · simp only [if_neg h]
      exact ih

/-- A probe is valid on the initialised elements exactly when it is valid on
the elements before. -/
theorem probeValid_initMicroPoints {ρ : Type} (CopyFrom : ρ → ρ → ρ) (Init : ρ → ρ)
    (rve : ρ) (elems : List (FESolidElement ρ)) (p : FEMicroProbe) :
    probeValid (initMicroPoints CopyFrom Init rve elems) p ↔ probeValid elems p := by
  unfold probeValid
  rw [FindElementFromID_initMicroPoints]
  cases h : FindElementFromID elems p.m_neid with
  | none => simp
  | some el => simp [FESolidElement.GaussPoints]

/-- The probe loop, when `fecore_error` returns false: the flag is true
exactly when every probe is valid. -/
theorem createProbes_ret {ρ : Type} (fe : ErrorMsg → Bool) (hfe : ∀ m, fe m = false)
    (elems : List (FESolidElement ρ)) (mat : FEMaterial ρ) (ps : List FEMicroProbe) :
    ∀ (i : Nat) (made : List FERVEProbe),
      (createProbes fe elems mat i ps made).1 = true ↔ ∀ p ∈ ps, probeValid elems p := by
  induction ps with
  | nil => intro i made; simp [createProbes]
  | cons p ps ih =>
    intro i made
    simp only [createProbes, List.mem_cons, forall_eq_or_imp]
    cases h : FindElementFromID elems p.m_neid with
    | none => simp [hfe, probeValid, h]
    | some pel =>
      dsimp only
      by_cases hv : 0 ≤ p.m_ngp - 1 ∧ p.m_ngp - 1 < pel.GaussPoints
      · rw [if_pos hv, ih]
        have : probeValid elems p := ⟨pel, h, by omega, by omega⟩
        simp [this]
      · rw [if_neg hv]
        have : ¬ probeValid elems p := by
          rintro ⟨el, hel, h1, h2⟩
          rw [h] at hel
          cases hel
          exact hv ⟨by omega, by omega⟩
        simp [hfe, this]

/-- The probe loop stops at the first probe that is not valid and reports
it: "Invalid Element ID" when no element has its ID, "Invalid gausspt number"
otherwise, with the 1-based number of the probe. -/
theorem createProbes_first_error {ρ : Type} (fe : ErrorMsg → Bool)
    (elems : List (FESolidElement ρ)) (mat : FEMaterial ρ)
    (good : List FEMicroProbe) (p : FEMicroProbe) (rest : List FEMicroProbe)
    (hgood : ∀ q ∈ good, probeValid elems q) (hbad : ¬ probeValid elems p) :
    ∀ (i : Nat) (made : List FERVEProbe),
      ∃ msg, (createProbes fe elems mat i (good ++ p :: rest) made).1 = fe msg ∧
        (createProbes fe elems mat i (good ++ p :: rest) made).2.1 = [msg] ∧
        msg.probe = Int.ofNat (i + good.length) + 1 ∧
        msg.matID = mat.GetID ∧ msg.matName = mat.GetName ∧
        msg.fmt = (if (FindElementFromID elems p.m_neid).isSome
          then "Invalid gausspt number for micro-probe %d in material %d (%s)"
          else "Invalid Element ID for micro probe %d in material %d (%s)") := by
  induction good with
  | nil =>
    intro i made
    simp only [List.nil_append, createProbes, List.length_nil, Nat.add_zero]
    cases h : FindElementFromID elems p.m_neid with
    | none => exact ⟨_, rfl, rfl, rfl, rfl, rfl, rfl⟩
    | some pel =>
      dsimp only
      have hv : ¬ (0 ≤ p.m_ngp - 1 ∧ p.m_ngp - 1 < pel.GaussPoints) := by
        intro hv
        exact hbad ⟨pel, h, by omega, by omega⟩
      rw [if_neg hv]
      exact ⟨_, rfl, rfl, rfl, rfl, rfl, rfl⟩
  | cons q good ih =>
    intro i made
    obtain ⟨el, hel, h1, h2⟩ := hgood q (List.mem_cons_self _ _)
    simp only [List.cons_append, createProbes, hel]
    rw [if_pos ⟨by omega, by omega⟩]
    obtain ⟨msg, hm⟩ := ih (fun r hr => hgood r (List.mem_cons_of_mem _ hr)) (i + 1) _
    refine ⟨msg, hm.1, hm.2.1, ?_, hm.2.2.2⟩
    rw [hm.2.2.1]
    simp only [List.length_cons]
    congr 2
    omega

/-- C17: micro-probe validation in Initialize.  A failing base-class
initialisation makes it return false.  When the base-class initialisation
succeeds, the material is a micro material and fecore_error returns false,
Initialize returns true if and only if for every probe an element with the
probe's element ID exists in the domain and the probe's 1-based integration
point number lies between 1 and GaussPoints of that element; and the first
probe violating either condition is reported ("Invalid Element ID" /
"Invalid gausspt number", with its 1-based number) and makes it return false. -/
theorem Initialize_probes {ρ : Type}
    (baseInit : FEElasticMultiscaleDomain1O ρ → Bool × FEElasticMultiscaleDomain1O ρ)
    (CopyFrom : ρ → ρ → ρ) (Init : ρ → ρ) (fecore_error : ErrorMsg → Bool)
    (dom : FEElasticMultiscaleDomain1O ρ) :
    ((baseInit dom).1 = false →
      ∃ r, FEElasticMultiscaleDomain1O.Initialize baseInit CopyFrom Init fecore_error dom
        = some r ∧ r.ret = false) ∧
    ((baseInit dom).1 = true → (∀ m, fecore_error m = false) →
      ∀ mat pmat, (baseInit dom).2.m_pMat = some mat → mat.micro = some pmat →
      ∃ r, FEElasticMultiscaleDomain1O.Initialize baseInit CopyFrom Init fecore_error dom
          = some r ∧
        (r.ret = true ↔ ∀ p ∈ pmat.m_probe,
          ∃ el, FindElementFromID (baseInit dom).2.m_Elem p.m_neid = some el ∧
            1 ≤ p.m_ngp ∧ p.m_ngp ≤ el.GaussPoints) ∧
        (∀ p ∈ pmat.m_probe, (∃ el, FindElementFromID (baseInit dom).2.m_Elem p.m_neid = some el)
          ↔ ∃ el ∈ (baseInit dom).2.m_Elem, el.m_nID = p.m_neid) ∧
        (∀ good p rest, pmat.m_probe = good ++ p :: rest →
          (∀ q ∈ good, probeValid (baseInit dom).2.m_Elem q) →
          ¬ probeValid (baseInit dom).2.m_Elem p →
          r.ret = false ∧
          ∃ msg, r.errors = [msg] ∧ msg.probe = Int.ofNat good.length + 1 ∧
            msg.matID = mat.GetID ∧ msg.matName = mat.GetName ∧
            msg.fmt = (if (FindElementFromID (baseInit dom).2.m_Elem p.m_neid).isSome
              then "Invalid gausspt number for micro-probe %d in material %d (%s)"
              else "Invalid Element ID for micro probe %d in material %d (%s)"))) := by
  constructor
  · intro hb
    refine ⟨{ ret := false, dom := (baseInit dom).2, errors := [], probes := [] }, ?_, rfl⟩
    unfold FEElasticMultiscaleDomain1O.Initialize
    simp only [hb, if_true]
  · intro hb hfe mat pmat hmat hmicro
    have hb' : ¬ ((baseInit dom).1 = false) := by simp [hb]
    have hI : FEElasticMultiscaleDomain1O.Initialize baseInit CopyFrom Init fecore_error dom =
        some { ret := (createProbes fecore_error
                  (initMicroPoints CopyFrom Init pmat.m_mrve (baseInit dom).2.m_Elem) mat 0
                  pmat.m_probe []).1,
               dom := { (baseInit dom).2 with
                  m_Elem := initMicroPoints CopyFrom Init pmat.m_mrve (baseInit dom).2.m_Elem },
               errors := (createProbes fecore_error
                  (initMicroPoints CopyFrom Init pmat.m_mrve (baseInit dom).2.m_Elem) mat 0
                  pmat.m_probe []).2.1,
               probes := (createProbes fecore_error
                  (initMicroPoints CopyFrom Init pmat.m_mrve (baseInit dom).2.m_Elem) mat 0
                  pmat.m_probe []).2.2 } := by
      unfold FEElasticMultiscaleDomain1O.Initialize
      simp only [if_neg hb', hmat, hmicro]
    refine ⟨_, hI, ?_, ?_, ?_⟩
    · dsimp only
      rw [createProbes_ret fecore_error hfe]
      constructor
      · intro h p hp
        exact (probeValid_initMicroPoints CopyFrom Init pmat.m_mrve _ p).mp (h p hp)
      · intro h p hp
        exact (probeValid_initMicroPoints CopyFrom Init pmat.m_mrve _ p).mpr (h p hp)
    · intro p _
      exact (FindElementFromID_spec _ _).1
    · intro good p rest hps hgood hbad
      dsimp only
      rw [hps]
      obtain ⟨msg, h1, h2, h3, h4, h5, h6⟩ := createProbes_first_error fecore_error
        (initMicroPoints CopyFrom Init pmat.m_mrve (baseInit dom).2.m_Elem) mat good p rest
        (fun q hq => (probeValid_initMicroPoints CopyFrom Init pmat.m_mrve _ q).mpr (hgood q hq))
        (fun h => hbad ((probeValid_initMicroPoints CopyFrom Init pmat.m_mrve _ p).mp h)) 0 []
      refine ⟨by rw [h1, hfe], msg, h2, ?_, h4, h5, ?_⟩
      · rw [h3, Nat.zero_add]
      · rw [h6, FindElementFromID_initMicroPoints]
        cases FindElementFromID (baseInit dom).2.m_Elem p.m_neid <;> rfl

/-- C17 on a sample: a probe at integration point 2 of element 7 is accepted,
a probe at integration point 3 is refused. -/
theorem Initialize_probes_sample :
    (∃ r, FEElasticMultiscaleDomain1O.Initialize (fun d => (true, d)) (fun _ s => s) id
        (fun _ => false) (sampleMicroDomain ⟨7, 2, "p.log"⟩) = some r ∧ r.ret = true) ∧
    (∃ r, FEElasticMultiscaleDomain1O.Initialize (fun d => (true, d)) (fun _ s => s) id
        (fun _ => false) (sampleMicroDomain ⟨7, 3, "p.log"⟩) = some r ∧ r.ret = false) := by
  constructor
  · obtain ⟨r, hr, hiff, _⟩ := (Initialize_probes (fun d => (true, d)) (fun _ s => s) id
      (fun _ => false) (sampleMicroDomain ⟨7, 2, "p.log"⟩)).2 rfl (fun _ => rfl) _ _ rfl rfl
    refine ⟨r, hr, hiff.mpr ?_⟩
    intro p hp
    simp only [List.mem_singleton] at hp
    subst hp
    exact ⟨_, rfl, by decide, by decide⟩
  · obtain ⟨r, hr, hiff, _⟩ := (Initialize_probes (fun d => (true, d)) (fun _ s => s) id
      (fun _ => false) (sampleMicroDomain ⟨7, 3, "p.log"⟩)).2 rfl (fun _ => rfl) _ _ rfl rfl
    refine ⟨r, hr, ?_⟩
    rw [Bool.eq_false_iff]
    intro ht
    obtain ⟨el, hel, _, h2⟩ := hiff.mp ht ⟨7, 3, "p.log"⟩ (List.mem_singleton.mpr rfl)
    simp only [sampleMicroDomain, FindElementFromID, if_true, Option.some.injEq] at hel
    subst hel
    revert h2
    decide

/-! ### `FEMultiphasicShellDomain::Initialize` -/

/-- The inner check loop over any list of integration points: the flag is
set when it was set or a point is inverted, and every inverted point is
written out. -/
theorem checkFold_spec (detJ0 : FEShellElement → Nat → ℚ) (el : FEShellElement)
    (ns : List Nat) (st : Bool × List InvertedShell) :
    ((ns.foldl (fun st n =>
        if detJ0 el n ≤ 0 then
          (true, st.2 ++ [{ point := Int.ofNat n + 1, element := el.m_nID,
                            Jacobian := detJ0 el n, nodes := el.m_node.map (fun k => k + 1) }])
        else st) st).1 = true ↔ (st.1 = true ∨ ∃ n ∈ ns, detJ0 el n ≤ 0)) ∧
    (ns.foldl (fun st n =>
        if detJ0 el n ≤ 0 then
          (true, st.2 ++ [{ point := Int.ofNat n + 1, element := el.m_nID,
                            Jacobian := detJ0 el n, nodes := el.m_node.map (fun k => k + 1) }])
        else st) st).2 = st.2 ++ ns.filterMap (fun n =>
          if detJ0 el n ≤ 0 then
            some { point := Int.ofNat n + 1, element := el.m_nID, Jacobian := detJ0 el n,
                   nodes := el.m_node.map (fun k => k + 1) }
          else none) := by
  induction ns generalizing st with
  | nil => simp
  | cons n ns ih =>
    simp only [List.foldl_cons]
    by_cases h : detJ0 el n ≤ 0
    · simp only [if_pos h]
      rw [(ih _).1, (ih _).2]
      constructor
      · simp [h]
      · simp [List.filterMap_cons, h]
    · simp only [if_neg h]
      rw [(ih _).1, (ih _).2]
      constructor
      · simp [h]
      · simp [List.filterMap_cons, h]

/-- The check of one element. -/
theorem checkElement_spec (detJ0 : FEShellElement → Nat → ℚ) (el : FEShellElement)
    (st : Bool × List InvertedShell) :
    ((checkElement detJ0 el st).1 = true ↔
      (st.1 = true ∨ ∃ n, n < el.m_State.length ∧ detJ0 el n ≤ 0)) ∧
    (checkElement detJ0 el st).2 = st.2 ++ invertedPoints detJ0 el := by
  have h := checkFold_spec detJ0 el (List.range el.m_State.length) st
  unfold checkElement invertedPoints
  refine ⟨?_, h.2⟩
  rw [h.1]
  simp only [List.mem_range]

/-- The check of all elements. -/
theorem checkElements_spec (detJ0 : FEShellElement → Nat → ℚ) (elems : List FEShellElement)
    (st : Bool × List InvertedShell) :
    ((elems.foldl (fun st el => checkElement detJ0 el st) st).1 = true ↔
      (st.1 = true ∨ ∃ el ∈ elems, ∃ n, n < el.m_State.length ∧ detJ0 el n ≤ 0)) ∧
    (elems.foldl (fun st el => checkElement detJ0 el st) st).2
      = st.2 ++ elems.flatMap (invertedPoints detJ0) := by
  induction elems generalizing st with
  | nil => simp
  | cons el elems ih =>
    simp only [List.foldl_cons]
    rw [(ih _).1, (ih _).2, (checkElement_spec detJ0 el st).1, (checkElement_spec detJ0 el st).2]
    constructor
    · rw [or_assoc]
      simp only [List.mem_cons, or_and_right, exists_or, exists_eq_left]
    · simp [List.flatMap_cons]

/-- After the loop that stores the densities every material point holds them. -/
theorem initSBM_spec (sbmr : List ℚ) (elems : List FEShellElement) :
    ∀ el ∈ initSBM sbmr elems, ∀ ps ∈ el.m_State,
      ps.m_sbmr = sbmr ∧ ps.m_sbmrp = sbmr ∧ ps.m_sbmrhat = List.replicate sbmr.length 0 := by
  intro el hel ps hps
  unfold initSBM at hel
  rw [List.mem_map] at hel
  obtain ⟨el0, _, rfl⟩ := hel
  rw [List.mem_map] at hps
  obtain ⟨ps0, _, rfl⟩ := hps
  exact ⟨rfl, rfl, rfl⟩

/-- C18: Initialize checks for initially inverted shells.  It returns true if
and only if no integration point of any element has an initial Jacobian
detJ0 <= 0 (a zero Jacobian counts as inverted); it does not stop at the first
inverted point (every inverted point is written out); and it sets m_sbmr and
m_sbmrp of every integration point to the initial solid-bound molecule
densities of the material and m_sbmrhat to nsbm zeros, whether or not an
inverted shell is found.  The number of integration points is not changed. -/
theorem Initialize_inverted
    (baseInit : FEMultiphasicShellDomain → FEMultiphasicShellDomain)
    (SLCS : FEShellElement → Nat → ShellPoint → ShellPoint)
    (detJ0 : FEShellElement → Nat → ℚ) (dom : FEMultiphasicShellDomain) :
    ((FEMultiphasicShellDomain.Initialize baseInit SLCS detJ0 dom).1 = true ↔
      ∀ el ∈ (FEMultiphasicShellDomain.Initialize baseInit SLCS detJ0 dom).2.1.m_Elem,
        ∀ n, n < el.m_State.length → ¬ (detJ0 el n ≤ 0)) ∧
    (FEMultiphasicShellDomain.Initialize baseInit SLCS detJ0 dom).2.2 =
      (FEMultiphasicShellDomain.Initialize baseInit SLCS detJ0 dom).2.1.m_Elem.flatMap
        (invertedPoints detJ0) ∧
    (∀ el ∈ (FEMultiphasicShellDomain.Initialize baseInit SLCS detJ0 dom).2.1.m_Elem,
      ∀ ps ∈ el.m_State,
        ps.m_sbmr = (baseInit dom).m_pMat.sbm_rho0 ∧
        ps.m_sbmrp = (baseInit dom).m_pMat.sbm_rho0 ∧
        ps.m_sbmrhat = List.replicate (baseInit dom).m_pMat.sbm_rho0.length 0) ∧
    ((FEMultiphasicShellDomain.Initialize baseInit SLCS detJ0 dom).2.1.m_Elem.map
        (fun el => el.m_State.length)
      = (baseInit dom).m_Elem.map (fun el => el.m_State.length)) := by
  unfold FEMultiphasicShellDomain.Initialize
  dsimp only
  refine ⟨?_, ?_, ?_, ?_⟩
  · rw [decide_eq_true_iff, Bool.eq_false_iff, Ne, (checkElements_spec detJ0 _ _).1]
    simp
  · rw [(checkElements_spec detJ0 _ _).2]
    simp
  · exact initSBM_spec _ _
  · simp [initSBM, List.map_map, Function.comp_def]

/-- C18 on a sample: an element whose first integration point has a zero
Jacobian.  Initialize returns false, reports that point only, and every point
holds the initial density. -/
theorem Initialize_inverted_sample :
    (FEMultiphasicShellDomain.Initialize id (fun _ _ mp => mp)
      (fun _ n => if n = 0 then 0 else 1) sampleShellDomain).1 = false ∧
    (FEMultiphasicShellDomain.Initialize id (fun _ _ mp => mp)
      (fun _ n => if n = 0 then 0 else 1) sampleShellDomain).2.2
        = [{ point := 1, element := 4, Jacobian := 0, nodes := [1, 2, 3, 4] }] ∧
    (FEMultiphasicShellDomain.Initialize id (fun _ _ mp => mp)
      (fun _ _ => 1) sampleShellDomain).1 = true ∧
    (∀ el ∈ (FEMultiphasicShellDomain.Initialize id (fun _ _ mp => mp)
        (fun _ n => if n = 0 then 0 else 1) sampleShellDomain).2.1.m_Elem,
      ∀ ps ∈ el.m_State, ps.m_sbmr = [9] ∧ ps.m_sbmrp = [9] ∧ ps.m_sbmrhat = [0]) := by
  refine ⟨by decide, by decide, by decide, ?_⟩
  exact (Initialize_inverted id (fun _ _ mp => mp) (fun _ n => if n = 0 then 0 else 1)
    sampleShellDomain).2.2.1

/-! ### `FEMultiphasicShellDomain::PreSolveUpdate` -/

/-- Reading an entry of a list after one entry has been overwritten. -/
theorem getD_set_eq (l : List ℚ) (k j : Nat) (v : ℚ) :
    (l.set k v).getD j 0 = if k = j ∧ k < l.length then v else l.getD j 0 := by
  simp only [List.getD_eq_getElem?_getD, List.getElem?_set]
  by_cases h : k = j
  · subst h
    by_cases hk : k < l.length
    · simp [hk]
    · simp [hk, List.getElem?_eq_none (not_lt.mp hk)]
  · simp [h]

/-- The solute loop writes `m_crp` only, keeps its length, and after `k`
passes entry `j < k` holds `m_J * Porosity * m_ca[j]`, the porosity being the
one of the point at the time of the assignment. -/
theorem resetCrp_spec (P : ShellPoint → ℚ) (mp : ShellPoint) (k : Nat) :
    (resetCrp P mp k = { mp with m_crp := (resetCrp P mp k).m_crp }) ∧
    (resetCrp P mp k).m_crp.length = mp.m_crp.length ∧
    (∀ j, j < k → k ≤ mp.m_crp.length →
      (resetCrp P mp k).m_crp.getD j 0 = mp.m_J * P (resetCrp P mp j) * mp.m_ca.getD j 0) := by
  induction k with
  | zero => exact ⟨rfl, rfl, fun j hj => absurd hj (Nat.not_lt_zero j)⟩
  | succ k ih =>
    obtain ⟨h1, h2, h3⟩ := ih
    refine ⟨?_, ?_, ?_⟩
    · simp only [resetCrp]
      rw [h1]
    · simp only [resetCrp, List.length_set, h2]
    · intro j hj hk
      simp only [resetCrp]
      rw [getD_set_eq]
      have hJ : (resetCrp P mp k).m_J = mp.m_J := by rw [h1]
      have hca : (resetCrp P mp k).m_ca = mp.m_ca := by rw [h1]
      by_cases hjk : k = j
      · subst hjk
        rw [if_pos ⟨rfl, by omega⟩, hJ, hca]
      · rw [if_neg (fun h => hjk h.1)]
        exact h3 j (by omega) (by omega)

/-- The solid-bound molecule loop writes `m_sbmrp` only, and after `k` passes
entry `j < k` holds `m_sbmr[j]`. -/
theorem resetSbmrp_spec (mp : ShellPoint) (k : Nat) :
    (resetSbmrp mp k = { mp with m_sbmrp := (resetSbmrp mp k).m_sbmrp }) ∧
    (resetSbmrp mp k).m_sbmrp.length = mp.m_sbmrp.length ∧
    (∀ j, j < k → k ≤ mp.m_sbmrp.length →
      (resetSbmrp mp k).m_sbmrp.getD j 0 = mp.m_sbmr.getD j 0) := by
  induction k with
  | zero => exact ⟨rfl, rfl, fun j hj => absurd hj (Nat.not_lt_zero j)⟩
  | succ k ih =>
    obtain ⟨h1, h2, h3⟩ := ih
    refine ⟨?_, ?_, ?_⟩
    · simp only [resetSbmrp]
      rw [h1]
    · simp only [resetSbmrp, List.length_set, h2]
    · intro j hj hk
      simp only [resetSbmrp]
      rw [getD_set_eq]
      have hs : (resetSbmrp mp k).m_sbmr = mp.m_sbmr := by rw [h1]
      by_cases hjk : k = j
      · subst hjk
        rw [if_pos ⟨rfl, by omega⟩, hs]
      · rw [if_neg (fun h => hjk h.1)]
        exact h3 j (by omega) (by omega)

/-- The assignments of one integration point: the determinant from `defgrad`,
the previous-time determinant and solid volume fraction, the previous-time
solute concentrations and solid-bound molecule densities; the current-time
fields are kept. -/
theorem resetPoint_fields (mat : FEMultiphasic) (P : ShellPoint → ℚ) (r0 rt : vec3d)
    (FJ : mat3d × ℚ) (mp : ShellPoint)
    (hcrp : mat.Solutes ≤ mp.m_crp.length) (hsbm : mp.m_nsbm.toNat ≤ mp.m_sbmrp.length) :
    (resetPoint mat P r0 rt FJ mp).m_J = FJ.2 ∧
    (resetPoint mat P r0 rt FJ mp).m_Jp = (resetPoint mat P r0 rt FJ mp).m_J ∧
    (resetPoint mat P r0 rt FJ mp).m_phi0p = (resetPoint mat P r0 rt FJ mp).m_phi0 ∧
    (∀ k, k < mat.Solutes →
      (resetPoint mat P r0 rt FJ mp).m_crp.getD k 0 =
        (resetPoint mat P r0 rt FJ mp).m_J
          * P (resetCrp P (resetKinematics r0 rt FJ mp) k)
          * (resetPoint mat P r0 rt FJ mp).m_ca.getD k 0) ∧
    ((∀ q crp, P { q with m_crp := crp } = P q) → ∀ k, k < mat.Solutes →
      (resetPoint mat P r0 rt FJ mp).m_crp.getD k 0 =
        (resetPoint mat P r0 rt FJ mp).m_J * P (resetKinematics r0 rt FJ mp)
          * (resetPoint mat P r0 rt FJ mp).m_ca.getD k 0) ∧
    (∀ j : Nat, (j : Int) < mp.m_nsbm →
      (resetPoint mat P r0 rt FJ mp).m_sbmrp.getD j 0
        = (resetPoint mat P r0 rt FJ mp).m_sbmr.getD j 0) ∧
    (resetPoint mat P r0 rt FJ mp).m_phi0 = mp.m_phi0 ∧
    (resetPoint mat P r0 rt FJ mp).m_ca = mp.m_ca ∧
    (resetPoint mat P r0 rt FJ mp).m_sbmr = mp.m_sbmr := by
  obtain ⟨c1, c2, c3⟩ := resetCrp_spec P (resetKinematics r0 rt FJ mp) mat.Solutes
  have hn : (resetCrp P (resetKinematics r0 rt FJ mp) mat.Solutes).m_nsbm = mp.m_nsbm := by
    rw [c1]; rfl
  obtain ⟨s1, s2, s3⟩ := resetSbmrp_spec (resetCrp P (resetKinematics r0 rt FJ mp) mat.Solutes)
    mp.m_nsbm.toNat
  have hcrp5 : (resetPoint mat P r0 rt FJ mp).m_crp
      = (resetCrp P (resetKinematics r0 rt FJ mp) mat.Solutes).m_crp := by
    unfold resetPoint
    dsimp only
    rw [hn, s1]
  have hsb5 : (resetPoint mat P r0 rt FJ mp).m_sbmrp
      = (resetSbmrp (resetCrp P (resetKinematics r0 rt FJ mp) mat.Solutes)
          mp.m_nsbm.toNat).m_sbmrp := by
    unfold resetPoint
    dsimp only
    rw [hn]
  have hrest : (resetPoint mat P r0 rt FJ mp).m_J = FJ.2 ∧
      (resetPoint mat P r0 rt FJ mp).m_Jp = FJ.2 ∧
      (resetPoint mat P r0 rt FJ mp).m_phi0p = mp.m_phi0 ∧
      (resetPoint mat P r0 rt FJ mp).m_phi0 = mp.m_phi0 ∧
      (resetPoint mat P r0 rt FJ mp).m_ca = mp.m_ca ∧
      (resetPoint mat P r0 rt FJ mp).m_sbmr = mp.m_sbmr := by
    unfold resetPoint
    dsimp only
    rw [hn, s1, c1]
    exact ⟨rfl, rfl, rfl, rfl, rfl, rfl⟩
  obtain ⟨r1, r2, r3, r4, r5, r6⟩ := hrest
  have hmain : ∀ k, k < mat.Solutes →
      (resetPoint mat P r0 rt FJ mp).m_crp.getD k 0 =
        (resetPoint mat P r0 rt FJ mp).m_J
          * P (resetCrp P (resetKinematics r0 rt FJ mp) k)
          * (resetPoint mat P r0 rt FJ mp).m_ca.getD k 0 := by
    intro k hk
    rw [hcrp5, c3 k hk hcrp, r1, r5]
    rfl
  refine ⟨r1, by rw [r1, r2], by rw [r3, r4], hmain, ?_, ?_, r4, r5, r6⟩
  · intro hP k hk
    rw [hmain k hk, (resetCrp_spec P (resetKinematics r0 rt FJ mp) k).1, hP]
  · intro j hj
    have hj' : j < mp.m_nsbm.toNat := by omega
    have hlen : mp.m_nsbm.toNat
        ≤ (resetCrp P (resetKinematics r0 rt FJ mp) mat.Solutes).m_sbmrp.length := by
      rw [c1]; exact hsbm
    rw [hsb5, s3 j hj' hlen, r6, c1]
    rfl

/-- C19: PreSolveUpdate resets the previous-time fields of every integration
point to the current state.  For every element and every integration point
of the domain (arrays sized for the solutes and the solid-bound molecules)
the point that PreSolveUpdate stores is the point q after the assignments,
handed to the reactions and to mp.Update; and after the assignments m_Jp
equals the freshly computed determinant m_J of the deformation gradient,
m_phi0p = m_phi0, m_crp[k] = m_J * Porosity * m_ca[k] for every solute k of the
material (Porosity being evaluated on the point when the entry is assigned,
which is its value after the kinematic assignments when it does not read
m_crp), and m_sbmrp[j] = m_sbmr[j] for every j < m_nsbm, while the current-time
fields m_phi0, m_ca and m_sbmr are not written.  No integration point is
added or dropped. -/
theorem PreSolveUpdate_resets
    (basePreSolve : FEMultiphasicShellDomain → FEMultiphasicShellDomain)
    (Node : Int → FENode) (Evaluate : FEShellElement → List vec3d → Nat → vec3d)
    (defgrad : FEShellElement → Nat → mat3d × ℚ) (Porosity : ShellPoint → ℚ)
    (InitializeElementData : ShellPoint → ShellPoint) (mpUpdate : ShellPoint → ShellPoint)
    (dom : FEMultiphasicShellDomain) (iel j : Nat) (el : FEShellElement) (mp : ShellPoint)
    (hel : (basePreSolve dom).m_Elem[iel]? = some el) (hmp : el.m_State[j]? = some mp)
    (hcrp : (basePreSolve dom).m_pMat.Solutes ≤ mp.m_crp.length)
    (hsbm : mp.m_nsbm.toNat ≤ mp.m_sbmrp.length) :
    ∃ q kin : ShellPoint,
      kin = resetKinematics (Evaluate el (el.m_node.map (fun k => (Node k).m_r0)) j)
        (Evaluate el (el.m_node.map (fun k => (Node k).m_rt)) j) (defgrad el j) mp ∧
      ((FEMultiphasicShellDomain.PreSolveUpdate basePreSolve Node Evaluate defgrad Porosity
          InitializeElementData mpUpdate dom).m_Elem[iel]?.bind (fun el1 => el1.m_State[j]?)
        = some (mpUpdate (InitializeElementData q))) ∧
      ((FEMultiphasicShellDomain.PreSolveUpdate basePreSolve Node Evaluate defgrad Porosity
          InitializeElementData mpUpdate dom).m_Elem.map (fun el1 => el1.m_State.length)
        = (basePreSolve dom).m_Elem.map (fun el1 => el1.m_State.length)) ∧
      q.m_J = (defgrad el j).2 ∧
      q.m_Jp = q.m_J ∧
      q.m_phi0p = q.m_phi0 ∧
      (∀ k, k < (basePreSolve dom).m_pMat.Solutes →
        q.m_crp.getD k 0 = q.m_J * Porosity (resetCrp Porosity kin k) * q.m_ca.getD k 0) ∧
      ((∀ p crp, Porosity { p with m_crp := crp } = Porosity p) →
        ∀ k, k < (basePreSolve dom).m_pMat.Solutes →
          q.m_crp.getD k 0 = q.m_J * Porosity kin * q.m_ca.getD k 0) ∧
      (∀ l : Nat, (l : Int) < mp.m_nsbm → q.m_sbmrp.getD l 0 = q.m_sbmr.getD l 0) ∧
      q.m_phi0 = mp.m_phi0 ∧ q.m_ca = mp.m_ca ∧ q.m_sbmr = mp.m_sbmr := by
  have h := resetPoint_fields (basePreSolve dom).m_pMat Porosity
    (Evaluate el (el.m_node.map (fun k => (Node k).m_r0)) j)
    (Evaluate el (el.m_node.map (fun k => (Node k).m_rt)) j) (defgrad el j) mp hcrp hsbm
  refine ⟨_, _, rfl, ?_, ?_, h⟩
  · unfold FEMultiphasicShellDomain.PreSolveUpdate
    simp only [List.getElem?_map, hel, Option.map_some', Option.some_bind,
      List.getElem?_mapIdx, hmp]
  · unfold FEMultiphasicShellDomain.PreSolveUpdate
    simp [List.map_map, Function.comp_def]

/-- C19 witness: the second integration point of the sample domain, with
the determinant 2 and the porosity 1 - m_phi0/m_J = 9/10, no reactions and an
`mp.Update` that changes nothing: the stored point has m_Jp = 2,
m_phi0p = 1/5, m_crp = 2 * 9/10 * (3, 4) and m_sbmrp = (5, 6). -/
theorem PreSolveUpdate_resets_witness :
    ∃ q : ShellPoint,
      ((FEMultiphasicShellDomain.PreSolveUpdate id (fun _ => ⟨⟨0, 0, 0⟩, ⟨0, 0, 0⟩⟩)
          (fun _ _ _ => ⟨0, 0, 0⟩) (fun _ _ => (⟨fun _ _ => 0⟩, 2))
          (fun p => 1 - p.m_phi0 / p.m_J) id id sampleShellDomain).m_Elem[0]?.bind
            (fun el1 => el1.m_State[1]?) = some q) ∧
      q.m_J = 2 ∧ q.m_Jp = 2 ∧ q.m_phi0p = 1 / 5 ∧ q.m_phi0 = 1 / 5 ∧
      q.m_crp.getD 0 0 = 27 / 5 ∧ q.m_crp.getD 1 0 = 36 / 5 ∧
      q.m_sbmrp.getD 0 0 = 5 ∧ q.m_sbmrp.getD 1 0 = 6 ∧
      q.m_ca = [3, 4] ∧ q.m_sbmr = [5, 6] := by
  obtain ⟨q, kin, hkin, hst, _, hJ, hJp, hphi, _, hcrp, hsb, hphi0, hca, hsbmr⟩ :=
    PreSolveUpdate_resets id (fun _ => ⟨⟨0, 0, 0⟩, ⟨0, 0, 0⟩⟩)
      (fun _ _ _ => ⟨0, 0, 0⟩) (fun _ _ => (⟨fun _ _ => 0⟩, 2))
      (fun p => 1 - p.m_phi0 / p.m_J) id id sampleShellDomain 0 1
      { m_nID := 4, m_node := [0, 1, 2, 3], m_State := [samplePoint, samplePoint] }
      samplePoint rfl rfl (by decide) (by decide)
  have hJ2 : q.m_J = 2 := hJ
  have c0 := hcrp (fun _ _ => rfl) 0 (by decide)
  have c1 := hcrp (fun _ _ => rfl) 1 (by decide)
  have s0 := hsb 0 (by decide)
  have s1 := hsb 1 (by decide)
  refine ⟨q, hst, hJ2, by rw [hJp, hJ2], by rw [hphi, hphi0]; rfl, by rw [hphi0]; rfl,
    ?_, ?_, ?_, ?_, by rw [hca]; rfl, by rw [hsbmr]; rfl⟩
  · rw [c0, hJ2, hca, hkin]
    norm_num [resetKinematics, samplePoint]
  · rw [c1, hJ2, hca, hkin]
    norm_num [resetKinematics, samplePoint]
  · rw [s0, hsbmr]
    rfl
  · rw [s1, hsbmr]
    rfl

/-! ### Closed-form rules of `MIntegral` are antiderivatives -/

/-- The derivative of -cos is sin. -/
theorem hasDerivAt_neg_cos (t : ℝ) : HasDerivAt (fun s => -Real.cos s) (Real.sin t) t := by
  simpa using (Real.hasDerivAt_cos t).neg

/-- The derivative of -log|cos| is tan, where cos does not vanish. -/
theorem hasDerivAt_neg_log_abs_cos (t : ℝ) (h : Real.cos t ≠ 0) :
    HasDerivAt (fun s => -Real.log |Real.cos s|) (Real.tan t) t := by
  have h1 := ((Real.hasDerivAt_cos t).log h).neg
  simp only [Real.log_abs]
  convert h1 using 1
  rw [Real.tan_eq_sin_div_cos]
  ring

/-- The derivative of log|sin| is cos/sin, where sin does not vanish. -/
theorem hasDerivAt_log_abs_sin (t : ℝ) (h : Real.sin t ≠ 0) :
    HasDerivAt (fun s => Real.log |Real.sin s|) (Real.cos t / Real.sin t) t := by
  simp only [Real.log_abs]
  exact (Real.hasDerivAt_sin t).log h

/-- The derivative of log|sec + tan| is sec, where cos does not vanish. -/
theorem hasDerivAt_log_abs_sec_add_tan (t : ℝ) (h : Real.cos t ≠ 0) :
    HasDerivAt (fun s => Real.log |1 / Real.cos s + Real.tan s|) (1 / Real.cos t) t := by
  simp only [Real.log_abs]
  have hs : 1 + Real.sin t ≠ 0 := by
    intro h0
    have h1 : Real.sin t = -1 := by linarith
    have h2 := Real.sin_sq_add_cos_sq t
    rw [h1] at h2
    have : Real.cos t ^ 2 = 0 := by linarith
    exact h (pow_eq_zero_iff (by norm_num) |>.mp this)
  have hf : HasDerivAt (fun s => 1 / Real.cos s + Real.tan s)
      (-(-Real.sin t) / Real.cos t ^ 2 + 1 / Real.cos t ^ 2) t := by
    have h1 := (Real.hasDerivAt_cos t).inv h
    have h2 := Real.hasDerivAt_tan h
    have h3 := h1.add h2
    convert h3 using 1
    funext s
    simp [one_div]
  have hne : 1 / Real.cos t + Real.tan t ≠ 0 := by
    rw [Real.tan_eq_sin_div_cos, ← add_div]
    exact div_ne_zero hs h
  have h4 := hf.log hne
  convert h4 using 1
  rw [Real.tan_eq_sin_div_cos]
  field_simp
  ring

/-- The derivative of -log|csc + cot| is csc, where sin does not vanish. -/
theorem hasDerivAt_neg_log_abs_csc_add_cot (t : ℝ) (h : Real.sin t ≠ 0) :
    HasDerivAt (fun s => -Real.log |1 / Real.sin s + Real.cos s / Real.sin s|)
      (1 / Real.sin t) t := by
  simp only [Real.log_abs]
  have hc : 1 + Real.cos t ≠ 0 := by
    intro h0
    have h1 : Real.cos t = -1 := by linarith
    have h2 := Real.sin_sq_add_cos_sq t
    rw [h1] at h2
    have : Real.sin t ^ 2 = 0 := by linarith
    exact h (pow_eq_zero_iff (by norm_num) |>.mp this)
  have hf : HasDerivAt (fun s => 1 / Real.sin s + Real.cos s / Real.sin s)
      (-(Real.cos t) / Real.sin t ^ 2
        + ((-Real.sin t) * Real.sin t - Real.cos t * Real.cos t) / Real.sin t ^ 2) t := by
    have h1 := (Real.hasDerivAt_sin t).inv h
    have h2 := (Real.hasDerivAt_cos t).div (Real.hasDerivAt_sin t) h
    have h3 := h1.add h2
    convert h3 using 1
    funext s
    simp [one_div]
  have hne : 1 / Real.sin t + Real.cos t / Real.sin t ≠ 0 := by
    rw [← add_div]
    exact div_ne_zero hc h
  have h4 := (hf.log hne).neg
  convert h4 using 1
  have h2 := Real.sin_sq_add_cos_sq t
  field_simp
  nlinarith [h2]

/-- The derivative of log(cosh) is tanh. -/
theorem hasDerivAt_log_cosh (t : ℝ) :
    HasDerivAt (fun s => Real.log (Real.cosh s)) (Real.tanh t) t := by
  have h := (Real.hasDerivAt_cosh t).log (ne_of_gt (Real.cosh_pos t))
  rw [Real.tanh_eq_sinh_div_cosh]
  exact h

/-- The derivative of arctan(sinh) is 1/cosh. -/
theorem hasDerivAt_arctan_sinh (t : ℝ) :
    HasDerivAt (fun s => Real.arctan (Real.sinh s)) (1 / Real.cosh t) t := by
  have h := (Real.hasDerivAt_sinh t).arctan
  convert h using 1
  have hc := Real.cosh_sq' t
  have hp := Real.cosh_pos t
  rw [← hc]
  field_simp
  ring

/-- The derivative of a^s / log a is a^s, for a > 0 with log a ≠ 0. -/
theorem hasDerivAt_rpow_div_log (a t : ℝ) (ha : 0 < a) (hl : Real.log a ≠ 0) :
    HasDerivAt (fun s => a ^ s / Real.log a) (a ^ t) t := by
  have h := ((Real.hasStrictDerivAt_const_rpow ha t).hasDerivAt).div_const (Real.log a)
  convert h using 1
  field_simp

/-- The derivative of a^(k*s) / (k * log a) is a^(k*s), for a > 0 and a non-zero divisor. -/
theorem hasDerivAt_rpow_mul_div_log (a k t : ℝ) (ha : 0 < a) (hl : k * Real.log a ≠ 0) :
    HasDerivAt (fun s => a ^ (k * s) / (k * Real.log a)) (a ^ (k * t)) t := by
  have h0 : HasDerivAt (fun s => k * s) k t := by
    simpa using (hasDerivAt_id t).const_mul k
  have h1 := ((Real.hasStrictDerivAt_const_rpow ha (k * t)).hasDerivAt).comp t h0
  have h := h1.div_const (k * Real.log a)
  convert h using 1
  field_simp
  ring


/-- The sample algebra means what `freeDen` says. -/
theorem freeDen_denotes (x : MVariable) : Denotes freeMath x (freeDen x) where
  var := by intro t; simp [freeDen]
  neg := by intro p t; rfl
  add := by intro p q t; rfl
  mul := by intro p q t; rfl
  div := by intro p q t; rfl
  Log := by intro p t; simp [freeMath, freeDen, freeF1D]
  Abs := by intro p t; simp [freeMath, freeDen, freeF1D]
  Sin := by intro p t; simp [freeMath, freeDen, freeF1D]
  Cos := by intro p t; simp [freeMath, freeDen, freeF1D]
  Tan := by intro p t; simp [freeMath, freeDen, freeF1D]
  Cot := by intro p t; simp [freeMath, freeDen, freeF1D]
  Sec := by intro p t; simp [freeMath, freeDen, freeF1D]
  Csc := by intro p t; simp [freeMath, freeDen, freeF1D]
  Sinh := by intro p t; simp [freeMath, freeDen, freeF1D]
  Cosh := by intro p t; simp [freeMath, freeDen, freeF1D]
  Atan := by intro p t; simp [freeMath, freeDen, freeF1D]
  Exp := by intro p t; simp [freeMath, freeDen, freeF1D]
  f_cos := by intro p t; simp [freeDen, freeF1D]
  f_sin := by intro p t; simp [freeDen, freeF1D]
  f_tan := by intro p t; simp [freeDen, freeF1D]
  f_cot := by intro p t; simp [freeDen, freeF1D]
  f_sec := by intro p t; simp [freeDen, freeF1D]
  f_csc := by intro p t; simp [freeDen, freeF1D]
  f_sinh := by intro p t; simp [freeDen, freeF1D]
  f_cosh := by intro p t; simp [freeDen, freeF1D]
  f_tanh := by intro p t; simp [freeDen, freeF1D]
  f_sech := by intro p t; simp [freeDen, freeF1D]
  f_exp := by intro p t; simp [freeDen, freeF1D]
  mpow := by intro l r t; rfl
  mmul := by intro l r t; rfl
  number := by
    intro l hl t
    cases l <;> simp [freeMath] at hl <;> simp [freeMath, freeDen]

/-- The case `MF1D` of `MIntegral` with the argument `x`: the table of closed
forms is consulted. -/
theorem MIntegral_f1d (M : MMath) (x : MVariable) (fuel : Nat) (i : MITEM) (s : String)
    (hd : M.is_dependent (M.MEvaluate i) x = true)
    (he : M.MEvaluate i = MITEM.MF1D s (MITEM.MVAR x)) :
    MIntegral M x (fuel + 1) i =
      integrateF1D M s (MITEM.MVAR x) (MITEM.MF1D s (MITEM.MVAR x)) x := by
  have hd' : ¬ (M.is_dependent (M.MEvaluate i) x = false) := by simp [hd]
  rw [MIntegral]
  dsimp only
  rw [if_neg hd', he]
  simp [MITEM.isVarRef]

/-- The case `MPOW` of `MIntegral` for a^x with a number a that passes the
guard: the first two rules do not apply and the rule e/Log(a) is reached. -/
theorem MIntegral_exp_var (M : MMath) (x : MVariable) (fuel : Nat) (i l : MITEM)
    (hd : M.is_dependent (M.MEvaluate i) x = true)
    (he : M.MEvaluate i = MITEM.MPOW l (MITEM.MVAR x))
    (hv : is_var l = false) (ha : is_add l = false) (hs : is_sub l = false)
    (hn : M.is_number l = true) (hr : M.is_dependent (MITEM.MVAR x) x = true)
    (hg : M.is_int l = false ∨ 1 < M.mnumber_value l) :
    MIntegral M x (fuel + 1) i = some (M.div (M.MEvaluate i) (M.Log l)) := by
  have hd' : ¬ (M.is_dependent (M.MEvaluate i) x = false) := by simp [hd]
  rw [MIntegral]
  dsimp only
  rw [if_neg hd', he]
  rcases hg with h | h <;> simp [hv, ha, hs, hn, hr, h, MITEM.isVarRef]

/-- The case `MPOW` of `MIntegral` for a^(k*x) with numbers a and k, a passing
the guard: the rule e/(k*Log(a)) is reached. -/
theorem MIntegral_exp_mul (M : MMath) (x : MVariable) (fuel : Nat) (i l rl : MITEM)
    (hd : M.is_dependent (M.MEvaluate i) x = true)
    (he : M.MEvaluate i = MITEM.MPOW l (MITEM.MMUL rl (MITEM.MVAR x)))
    (hv : is_var l = false) (ha : is_add l = false) (hs : is_sub l = false)
    (hn : M.is_number l = true) (hnr : M.is_number rl = true)
    (hr : M.is_dependent (MITEM.MMUL rl (MITEM.MVAR x)) x = true)
    (hg : M.is_int l = false ∨ 1 < M.mnumber_value l) :
    MIntegral M x (fuel + 1) i = some (M.div (M.MEvaluate i) (M.mul rl (M.Log l))) := by
  have hd' : ¬ (M.is_dependent (M.MEvaluate i) x = false) := by simp [hd]
  rw [MIntegral]
  dsimp only
  rw [if_neg hd', he]
  rcases hg with h | h <;> simp [hv, ha, hs, hn, hnr, hr, h, MITEM.isVarRef]

/-- C14: every closed-form rule of MIntegral returns a true antiderivative.
For the integrand f(x) with f one of cos, sin, tan, cot, sec, csc, sinh, cosh,
tanh, sech, exp the returned expression (Sin, -Cos, -Log|Cos|, Log|Sin|,
Log|Sec+Tan|, -Log|Csc+Cot|, Cosh, Sinh, Log(Cosh), Atan(Sinh), Exp), and for
the integrand a^x or a^(k*x) with a a number that is non-integer or greater
than 1 the returned expression a^x/Log(a) or a^(k*x)/(k*Log(a)), has, read as
a real function of x, a derivative equal to the integrand wherever both are
defined (cos t ≠ 0 for tan and sec, sin t ≠ 0 for cot and csc, a > 0 and a
non-zero divisor for the exponentials). -/
theorem MIntegral_antiderivative (M : MMath) (x : MVariable) (den : MITEM → ℝ → ℝ)
    (hD : Denotes M x den) (fuel : Nat) (i : MITEM)
    (hd : M.is_dependent (M.MEvaluate i) x = true) (t : ℝ) :
    (M.MEvaluate i = MITEM.MF1D "cos" (MITEM.MVAR x) →
      MIntegral M x (fuel + 1) i = some (M.Sin (MITEM.MVAR x)) ∧
      HasDerivAt (den (M.Sin (MITEM.MVAR x))) (den (M.MEvaluate i) t) t) ∧
    (M.MEvaluate i = MITEM.MF1D "sin" (MITEM.MVAR x) →
      MIntegral M x (fuel + 1) i = some (M.neg (M.Cos (MITEM.MVAR x))) ∧
      HasDerivAt (den (M.neg (M.Cos (MITEM.MVAR x)))) (den (M.MEvaluate i) t) t) ∧
    (M.MEvaluate i = MITEM.MF1D "tan" (MITEM.MVAR x) → Real.cos t ≠ 0 →
      MIntegral M x (fuel + 1) i = some (M.neg (M.Log (M.Abs (M.Cos (MITEM.MVAR x))))) ∧
      HasDerivAt (den (M.neg (M.Log (M.Abs (M.Cos (MITEM.MVAR x)))))) (den (M.MEvaluate i) t) t) ∧
    (M.MEvaluate i = MITEM.MF1D "cot" (MITEM.MVAR x) → Real.sin t ≠ 0 →
      MIntegral M x (fuel + 1) i = some (M.Log (M.Abs (M.Sin (MITEM.MVAR x)))) ∧
      HasDerivAt (den (M.Log (M.Abs (M.Sin (MITEM.MVAR x))))) (den (M.MEvaluate i) t) t) ∧
    (M.MEvaluate i = MITEM.MF1D "sec" (MITEM.MVAR x) → Real.cos t ≠ 0 →
      MIntegral M x (fuel + 1) i = some (M.Log (M.Abs (M.add (M.Sec (MITEM.MVAR x)) (M.Tan (MITEM.MVAR x))))) ∧
      HasDerivAt (den (M.Log (M.Abs (M.add (M.Sec (MITEM.MVAR x)) (M.Tan (MITEM.MVAR x)))))) (den (M.MEvaluate i) t) t) ∧
    (M.MEvaluate i = MITEM.MF1D "csc" (MITEM.MVAR x) → Real.sin t ≠ 0 →
      MIntegral M x (fuel + 1) i = some (M.neg (M.Log (M.Abs (M.add (M.Csc (MITEM.MVAR x)) (M.Cot (MITEM.MVAR x)))))) ∧
      HasDerivAt (den (M.neg (M.Log (M.Abs (M.add (M.Csc (MITEM.MVAR x)) (M.Cot (MITEM.MVAR x))))))) (den (M.MEvaluate i) t) t) ∧
    (M.MEvaluate i = MITEM.MF1D "sinh" (MITEM.MVAR x) →
      MIntegral M x (fuel + 1) i = some (M.Cosh (MITEM.MVAR x)) ∧
      HasDerivAt (den (M.Cosh (MITEM.MVAR x))) (den (M.MEvaluate i) t) t) ∧
    (M.MEvaluate i = MITEM.MF1D "cosh" (MITEM.MVAR x) →
      MIntegral M x (fuel + 1) i = some (M.Sinh (MITEM.MVAR x)) ∧
      HasDerivAt (den (M.Sinh (MITEM.MVAR x))) (den (M.MEvaluate i) t) t) ∧
    (M.MEvaluate i = MITEM.MF1D "tanh" (MITEM.MVAR x) →
      MIntegral M x (fuel + 1) i = some (M.Log (M.Cosh (MITEM.MVAR x))) ∧
      HasDerivAt (den (M.Log (M.Cosh (MITEM.MVAR x)))) (den (M.MEvaluate i) t) t) ∧
    (M.MEvaluate i = MITEM.MF1D "sech" (MITEM.MVAR x) →
      MIntegral M x (fuel + 1) i = some (M.Atan (M.Sinh (MITEM.MVAR x))) ∧
      HasDerivAt (den (M.Atan (M.Sinh (MITEM.MVAR x)))) (den (M.MEvaluate i) t) t) ∧
    (M.MEvaluate i = MITEM.MF1D "exp" (MITEM.MVAR x) →
      MIntegral M x (fuel + 1) i = some (M.Exp (MITEM.MVAR x)) ∧
      HasDerivAt (den (M.Exp (MITEM.MVAR x))) (den (M.MEvaluate i) t) t) ∧
    (∀ l, M.MEvaluate i = MITEM.MPOW l (MITEM.MVAR x) →
      is_var l = false → is_add l = false → is_sub l = false →
      M.is_number l = true → M.is_dependent (MITEM.MVAR x) x = true →
      (M.is_int l = false ∨ 1 < M.mnumber_value l) →
      0 < (M.mnumber_value l : ℝ) → Real.log (M.mnumber_value l : ℝ) ≠ 0 →
      MIntegral M x (fuel + 1) i = some (M.div (M.MEvaluate i) (M.Log l)) ∧
      HasDerivAt (den (M.div (M.MEvaluate i) (M.Log l))) (den (M.MEvaluate i) t) t) ∧
    (∀ l rl, M.MEvaluate i = MITEM.MPOW l (MITEM.MMUL rl (MITEM.MVAR x)) →
      is_var l = false → is_add l = false → is_sub l = false →
      M.is_number l = true → M.is_number rl = true →
      M.is_dependent (MITEM.MMUL rl (MITEM.MVAR x)) x = true →
      (M.is_int l = false ∨ 1 < M.mnumber_value l) →
      0 < (M.mnumber_value l : ℝ) →
      (M.mnumber_value rl : ℝ) * Real.log (M.mnumber_value l : ℝ) ≠ 0 →
      MIntegral M x (fuel + 1) i = some (M.div (M.MEvaluate i) (M.mul rl (M.Log l))) ∧
      HasDerivAt (den (M.div (M.MEvaluate i) (M.mul rl (M.Log l))))
        (den (M.MEvaluate i) t) t) := by
  refine ⟨?_, ?_, ?_, ?_, ?_, ?_, ?_, ?_, ?_, ?_, ?_, ?_, ?_⟩
  · intro he
    refine ⟨by rw [MIntegral_f1d M x fuel i "cos" hd he]; simp [integrateF1D], ?_⟩
    have e1 : den (M.Sin (MITEM.MVAR x)) = fun s => Real.sin s := by
      funext s
      simp only [hD.Sin, hD.var]
    rw [e1, he, hD.f_cos, hD.var]
    exact Real.hasDerivAt_sin t
  · intro he
    refine ⟨by rw [MIntegral_f1d M x fuel i "sin" hd he]; simp [integrateF1D], ?_⟩
    have e1 : den (M.neg (M.Cos (MITEM.MVAR x))) = fun s => -Real.cos s := by
      funext s
      simp only [hD.neg, hD.Cos, hD.var]
    rw [e1, he, hD.f_sin, hD.var]
    exact hasDerivAt_neg_cos t
  · intro he hc
    refine ⟨by rw [MIntegral_f1d M x fuel i "tan" hd he]; simp [integrateF1D], ?_⟩
    have e1 : den (M.neg (M.Log (M.Abs (M.Cos (MITEM.MVAR x))))) = fun s => -Real.log |Real.cos s| := by
      funext s
      simp only [hD.neg, hD.Log, hD.Abs, hD.Cos, hD.var]
    rw [e1, he, hD.f_tan, hD.var]
    exact hasDerivAt_neg_log_abs_cos t hc
  · intro he hc
    refine ⟨by rw [MIntegral_f1d M x fuel i "cot" hd he]; simp [integrateF1D], ?_⟩
    have e1 : den (M.Log (M.Abs (M.Sin (MITEM.MVAR x)))) = fun s => Real.log |Real.sin s| := by
      funext s
      simp only [hD.Log, hD.Abs, hD.Sin, hD.var]
    rw [e1, he, hD.f_cot, hD.var]
    exact hasDerivAt_log_abs_sin t hc
  · intro he hc
    refine ⟨by rw [MIntegral_f1d M x fuel i "sec" hd he]; simp [integrateF1D], ?_⟩
    have e1 : den (M.Log (M.Abs (M.add (M.Sec (MITEM.MVAR x)) (M.Tan (MITEM.MVAR x))))) = fun s => Real.log |1 / Real.cos s + Real.tan s| := by
      funext s
      simp only [hD.Log, hD.Abs, hD.add, hD.Sec, hD.Tan, hD.var]
    rw [e1, he, hD.f_sec, hD.var]
    exact hasDerivAt_log_abs_sec_add_tan t hc
  · intro he hc
    refine ⟨by rw [MIntegral_f1d M x fuel i "csc" hd he]; simp [integrateF1D], ?_⟩
    have e1 : den (M.neg (M.Log (M.Abs (M.add (M.Csc (MITEM.MVAR x)) (M.Cot (MITEM.MVAR x)))))) = fun s => -Real.log |1 / Real.sin s + Real.cos s / Real.sin s| := by
      funext s
      simp only [hD.neg, hD.Log, hD.Abs, hD.add, hD.Csc, hD.Cot, hD.var]
    rw [e1, he, hD.f_csc, hD.var]
    exact hasDerivAt_neg_log_abs_csc_add_cot t hc
  · intro he
    refine ⟨by rw [MIntegral_f1d M x fuel i "sinh" hd he]; simp [integrateF1D], ?_⟩
    have e1 : den (M.Cosh (MITEM.MVAR x)) = fun s => Real.cosh s := by
      funext s
      simp only [hD.Cosh, hD.var]
    rw [e1, he, hD.f_sinh, hD.var]
    exact Real.hasDerivAt_cosh t
  · intro he
    refine ⟨by rw [MIntegral_f1d M x fuel i "cosh" hd he]; simp [integrateF1D], ?_⟩
    have e1 : den (M.Sinh (MITEM.MVAR x)) = fun s => Real.sinh s := by
      funext s
      simp only [hD.Sinh, hD.var]
    rw [e1, he, hD.f_cosh, hD.var]
    exact Real.hasDerivAt_sinh t
  · intro he
    refine ⟨by rw [MIntegral_f1d M x fuel i "tanh" hd he]; simp [integrateF1D], ?_⟩
    have e1 : den (M.Log (M.Cosh (MITEM.MVAR x))) = fun s => Real.log (Real.cosh s) := by
      funext s
      simp only [hD.Log, hD.Cosh, hD.var]
    rw [e1, he, hD.f_tanh, hD.var]
    exact hasDerivAt_log_cosh t
  · intro he
    refine ⟨by rw [MIntegral_f1d M x fuel i "sech" hd he]; simp [integrateF1D], ?_⟩
    have e1 : den (M.Atan (M.Sinh (MITEM.MVAR x))) = fun s => Real.arctan (Real.sinh s) := by
      funext s
      simp only [hD.Atan, hD.Sinh, hD.var]
    rw [e1, he, hD.f_sech, hD.var]
    exact hasDerivAt_arctan_sinh t
  · intro he
    refine ⟨by rw [MIntegral_f1d M x fuel i "exp" hd he]; simp [integrateF1D], ?_⟩
    have e1 : den (M.Exp (MITEM.MVAR x)) = fun s => Real.exp s := by
      funext s
      simp only [hD.Exp, hD.var]
    rw [e1, he, hD.f_exp, hD.var]
    exact Real.hasDerivAt_exp t
  · intro l he hv ha hs hn hr hg hpos hlog
    refine ⟨?_, ?_⟩
    · exact MIntegral_exp_var M x fuel i l hd he hv ha hs hn hr hg
    · have e1 : den (M.div (M.MEvaluate i) (M.Log l)) =
          fun s => (M.mnumber_value l : ℝ) ^ s / Real.log (M.mnumber_value l : ℝ) := by
        funext s
        rw [hD.div, he, hD.mpow, hD.Log, hD.var, hD.number l hn]
      rw [e1, he, hD.mpow, hD.var, hD.number l hn]
      exact hasDerivAt_rpow_div_log _ t hpos hlog
  · intro l rl he hv ha hs hn hnr hr hg hpos hlog
    refine ⟨?_, ?_⟩
    · exact MIntegral_exp_mul M x fuel i l rl hd he hv ha hs hn hnr hr hg
    · have e1 : den (M.div (M.MEvaluate i) (M.mul rl (M.Log l))) =
          fun s => (M.mnumber_value l : ℝ) ^ ((M.mnumber_value rl : ℝ) * s)
            / ((M.mnumber_value rl : ℝ) * Real.log (M.mnumber_value l : ℝ)) := by
        funext s
        rw [hD.div, he, hD.mpow, hD.mul, hD.Log, hD.mmul, hD.var, hD.number l hn,
          hD.number rl hnr]
      rw [e1, he, hD.mpow, hD.mmul, hD.var, hD.number l hn, hD.number rl hnr]
      exact hasDerivAt_rpow_mul_div_log _ _ t hpos hlog

/-- C14 witness: in the sample algebra the integral of cos(x) is Sin(x), whose
derivative at 0 is the integrand at 0, and the integral of tan(x) is
-Log|Cos(x)|, likewise. -/
theorem MIntegral_antiderivative_witness :
    (MIntegral freeMath ⟨"x"⟩ (0 + 1) (MITEM.MF1D "cos" (MITEM.MVAR ⟨"x"⟩))
        = some (freeMath.Sin (MITEM.MVAR ⟨"x"⟩)) ∧
      HasDerivAt (freeDen ⟨"x"⟩ (freeMath.Sin (MITEM.MVAR ⟨"x"⟩)))
        (freeDen ⟨"x"⟩ (freeMath.MEvaluate (MITEM.MF1D "cos" (MITEM.MVAR ⟨"x"⟩))) 0) 0) ∧
    (MIntegral freeMath ⟨"x"⟩ (0 + 1) (MITEM.MF1D "tan" (MITEM.MVAR ⟨"x"⟩))
        = some (freeMath.neg (freeMath.Log (freeMath.Abs (freeMath.Cos (MITEM.MVAR ⟨"x"⟩))))) ∧
      HasDerivAt (freeDen ⟨"x"⟩
          (freeMath.neg (freeMath.Log (freeMath.Abs (freeMath.Cos (MITEM.MVAR ⟨"x"⟩))))))
        (freeDen ⟨"x"⟩ (freeMath.MEvaluate (MITEM.MF1D "tan" (MITEM.MVAR ⟨"x"⟩))) 0) 0) :=
  ⟨(MIntegral_antiderivative freeMath ⟨"x"⟩ (freeDen ⟨"x"⟩) (freeDen_denotes ⟨"x"⟩) 0
      (MITEM.MF1D "cos" (MITEM.MVAR ⟨"x"⟩)) (by decide) 0).1 rfl,
   (MIntegral_antiderivative freeMath ⟨"x"⟩ (freeDen ⟨"x"⟩) (freeDen_denotes ⟨"x"⟩) 0
      (MITEM.MF1D "tan" (MITEM.MVAR ⟨"x"⟩)) (by decide) 0).2.2.1 rfl (by simp)⟩

end FEBio
